import Mathlib

/-
  Verification development for the chunked-uploader repository
  (package chunkeduploader: lib.go and the instance-based uploader file).

  The Go code is shallowly embedded:
  * the file system is a map from path strings to byte lists
    (bytes are modelled as natural numbers; only lengths and equality of
    contents matter to the properties proved here);
  * the FileManager's `chunks` map is a map from file names to slot lists,
    a slot being a chunk path string ("" = empty slot, Go's zero value);
  * Go `int` / `int64` values coming from the request are modelled as Int;
  * a Go runtime panic (out-of-range slice index, negative make length) is
    modelled explicitly: FileManager.AddChunk returns a Bool flag that is
    true when the Go code would panic, and Uploader.processChunk returns
    none when a panic propagates out of it;
  * fallible operations return Except String carrying the error message the
    Go code formats (the variable tail of messages built from a wrapped
    error value is dropped, only the printf skeleton is kept);
  * `fmt.Sprintf("%d", _)` is modelled by an explicitly defined decimal
    renderer (decRepr / intStr) so that its arithmetic properties can be
    proved rather than assumed.
-/

namespace ChunkedUploader

/-! ### Decimal rendering, modelling fmt.Sprintf "%d" -/

/-- The decimal digit character for `n % 10`. -/
def digitChar (n : Nat) : Char :=
  match n % 10 with
  | 0 => '0' | 1 => '1' | 2 => '2' | 3 => '3' | 4 => '4'
  | 5 => '5' | 6 => '6' | 7 => '7' | 8 => '8' | _ => '9'

/-- Digits of `n` in base 10, most significant first; empty for `0`. -/
def decReprAux (n : Nat) : List Char :=
  if h : n = 0 then []
  else decReprAux (n / 10) ++ [digitChar n]
termination_by n
decreasing_by exact Nat.div_lt_self (Nat.pos_of_ne_zero h) (by decide)

/-- Decimal digit list of a natural number (`0` renders as "0"). -/
def decRepr (n : Nat) : List Char :=
  if n = 0 then ['0'] else decReprAux n

/-- Decimal string of a natural number. -/
def natStr (n : Nat) : String := String.mk (decRepr n)

/-- Decimal string of an integer, modelling Go's `%d` on `int`/`int64`. -/
def intStr (i : Int) : String :=
  if i < 0 then "-" ++ String.mk (decRepr (-i).toNat) else String.mk (decRepr i.toNat)

/-! ### Path building (filepath.Join / filepath.Ext / Sprintf patterns) -/

/-- Models Go's `filepath.Join(dir, name)` for the clean, relative arguments
this package builds (no trailing separators, nonempty parts): the slash join. -/
def filepathJoin (dir name : String) : String := dir ++ "/" ++ name

/-- Scan a file name from the end: collect characters until a dot
(the extension, dot included) or a path separator / the start (no extension).
The first argument is the reversed character list of the name. -/
def extRev : List Char → List Char → List Char
  | [], _ => []
  | c :: rest, acc =>
    if c = '.' then '.' :: acc
    else if c = '/' then []
    else extRev rest (c :: acc)

/-- Models Go's `filepath.Ext`: the suffix of the last path element starting
at its final dot, or "" when there is no dot. -/
def filepathExt (s : String) : String := String.mk (extRev s.data.reverse [])

/-- The temporary chunk file path built by both uploader variants:
`filepath.Join(tempDir, fmt.Sprintf("%s_chunk_%d", fileName, chunkIndex))`. -/
def chunkPathOf (tempDir fileName : String) (chunkIndex : Int) : String :=
  filepathJoin tempDir (fileName ++ "_chunk_" ++ intStr chunkIndex)

/-! ### String-keyed stores -/

/-- A string-keyed partial map; used for the file system (paths to byte
lists) and for the FileManager's chunks map (file names to slot lists). -/
def Store (α : Type) : Type := String → Option α

/-- The empty store. -/
def Store.empty {α : Type} : Store α := fun _ => none

/-- Write a binding (models map assignment and os.Create + full write). -/
def Store.write {α : Type} (m : Store α) (k : String) (v : α) : Store α :=
  fun x => if x = k then some v else m x

/-- Drop a binding (models `delete` on a map and os.Remove). -/
def Store.erase {α : Type} (m : Store α) (k : String) : Store α :=
  fun x => if x = k then none else m x

/-- The file system: path strings to byte contents. -/
def FS : Type := Store (List Nat)

/-- Append bytes to a file, creating it when absent
(models io.Copy into an open file handle). -/
def FS.append (fs : FS) (k : String) (v : List Nat) : FS :=
  Store.write fs k ((fs k).getD [] ++ v)

/-! ### FileManager (identical in lib.go and the instance-based file) -/

/-- The FileManager state: its `chunks` map from file name to the slot list
of chunk paths ("" is an empty slot). The mutex only serialises access and
has no functional content in a sequential embedding. -/
def FileManager : Type := Store (List String)

/-- `NewFileManager()`: empty chunks map. -/
def NewFileManager : FileManager := Store.empty

/-- `AddChunk`: allocate `make([]string, totalChunks)` on first sight of
`fileName`, then `fm.chunks[fileName][chunkIndex] = chunkPath`.
Go panics when `totalChunks < 0` (make) or when `chunkIndex` is out of range
for the slice; the returned Bool is that panic flag, and the returned map is
the map state at the moment of the panic (in the fresh-entry case the empty
slot list has already been inserted when the index panic hits). -/
def FileManager.AddChunk (fm : FileManager) (fileName chunkPath : String)
    (chunkIndex totalChunks : Int) : FileManager × Bool :=
  match fm fileName with
  | some l =>
    if 0 ≤ chunkIndex ∧ chunkIndex < (l.length : Int) then
      (Store.write fm fileName (l.set chunkIndex.toNat chunkPath), false)
    else (fm, true)
  | none =>
    if totalChunks < 0 then (fm, true)
    else
      let fresh := List.replicate totalChunks.toNat ""
      if 0 ≤ chunkIndex ∧ chunkIndex < totalChunks then
        (Store.write fm fileName (fresh.set chunkIndex.toNat chunkPath), false)
      else (Store.write fm fileName fresh, true)

/-- `IsComplete`: false for an unknown file, else no slot is empty. -/
def FileManager.IsComplete (fm : FileManager) (fileName : String) : Bool :=
  match fm fileName with
  | none => false
  | some l => l.all (fun c => c != "")

/-- `GetChunks` (instance-based file): nil for an unknown file, otherwise a
copy of the slot list. Copy and value coincide in a functional embedding;
the aliasing distinction with lib.go's live-slice variant is modelled
separately by the heap model below. -/
def FileManager.GetChunks (fm : FileManager) (fileName : String) : List String :=
  (fm fileName).getD []

/-- `GetReceivedChunksCount`: number of non-empty slots, 0 when unknown. -/
def FileManager.GetReceivedChunksCount (fm : FileManager) (fileName : String) : Nat :=
  match fm fileName with
  | none => 0
  | some l => l.countP (fun c => c != "")

/-- `RemoveFile`: delete the map entry. -/
def FileManager.RemoveFile (fm : FileManager) (fileName : String) : FileManager :=
  Store.erase fm fileName

/-! ### Uploader configuration and wire structures -/

/-- `Config` (MaxMemory only bounds the form parser, kept for fidelity). -/
structure Config where
  TempDir : String
  UploadsDir : String
  MaxMemory : Int
  AutoCleanup : Bool

/-- `DefaultConfig()`. -/
def DefaultConfig : Config :=
  { TempDir := "./temp_chunks", UploadsDir := "./uploads",
    MaxMemory := 32 * 1048576, AutoCleanup := true }

/-- `ChunkInfo`. -/
structure ChunkInfo where
  FileName : String
  ChunkIndex : Int
  TotalChunks : Int
  FileSize : Int

/-- `UploadResponse` (unset fields keep Go's zero values). -/
structure UploadResponse where
  Status : String
  FileName : String
  ChunkIndex : Int
  TotalChunks : Int
  Message : String
  FilePath : String
  ReceivedSize : Int

/-- `StatusResponse`. -/
structure StatusResponse where
  FileName : String
  IsComplete : Bool
  ReceivedChunks : Nat
  TotalChunks : Nat
deriving DecidableEq

/-- Combined mutable state of one Uploader: the file system and the
file-manager index. -/
structure Sys where
  fs : FS
  fm : FileManager

/-! ### Assembler (Uploader.stitchFile) -/

/-- The chunk-copy loop of stitchFile: iterate slots in index order; an
empty slot or an unopenable chunk aborts with the Go error message; each
chunk's bytes are appended to the final file (already created empty).
Returns the file system as left by the loop and the loop outcome. -/
def stitchLoop (fs : FS) (finalPath fileName : String) :
    List String → Nat → FS × Except String Unit
  | [], _ => (fs, Except.ok ())
  | p :: rest, i =>
    if p = "" then
      (fs, Except.error ("missing chunk " ++ natStr i ++ " for file " ++ fileName))
    else
      match fs p with
      | none => (fs, Except.error ("error opening chunk " ++ natStr i ++ ": no such file"))
      | some content =>
        stitchLoop (FS.append fs finalPath content) finalPath fileName rest (i + 1)

/-- Instance-based `Uploader.stitchFile`: create (truncate) the final file at
`filepath.Join(UploadsDir, fileName)`, copy every chunk in index order, then
compare the total written against the declared size; on mismatch delete the
final file and fail with the size-mismatch message carrying both counts.
Returns the post-call state and the final path or the error. -/
def Uploader.stitchFile (cfg : Config) (sys : Sys) (fileName : String)
    (expectedSize : Int) : Sys × Except String String :=
  let chunks := FileManager.GetChunks sys.fm fileName
  let finalPath := filepathJoin cfg.UploadsDir fileName
  let fs0 := Store.write sys.fs finalPath []
  match stitchLoop fs0 finalPath fileName chunks 0 with
  | (fs1, Except.error e) => ({ sys with fs := fs1 }, Except.error e)
  | (fs1, Except.ok ()) =>
    let totalWritten : Int := ((fs1 finalPath).getD []).length
    if totalWritten ≠ expectedSize then
      ({ sys with fs := Store.erase fs1 finalPath },
       Except.error ("file size mismatch: expected " ++ intStr expectedSize
         ++ ", got " ++ intStr totalWritten))
    else ({ sys with fs := fs1 }, Except.ok finalPath)

/-- `Uploader.cleanupChunks`: best-effort delete of every recorded chunk
file, then removal of the index entry. -/
def Uploader.cleanupChunks (sys : Sys) (fileName : String) : Sys :=
  let chunks := FileManager.GetChunks sys.fm fileName
  let fs1 := chunks.foldl (fun fs p => if p != "" then Store.erase fs p else fs) sys.fs
  { fs := fs1, fm := FileManager.RemoveFile sys.fm fileName }

/-- `Uploader.GetStatus`. -/
def Uploader.GetStatus (sys : Sys) (fileName : String) : StatusResponse :=
  { FileName := fileName
    IsComplete := FileManager.IsComplete sys.fm fileName
    ReceivedChunks := FileManager.GetReceivedChunksCount sys.fm fileName
    TotalChunks := (FileManager.GetChunks sys.fm fileName).length }

/-! ### Lifecycle controller (Uploader.processChunk / HandleUpload) -/

/-- Injected outcomes for the I/O the chunk-saving path performs
(temp-dir creation, temp-file creation, payload copy); the stitch side's
chunk opens are decided by the modelled file system itself. -/
structure IoFlags where
  mkdirTempOk : Bool
  createTempOk : Bool
  copyTempOk : Bool

/-- All chunk-saving I/O succeeds. -/
def ioAllOk : IoFlags := { mkdirTempOk := true, createTempOk := true, copyTempOk := true }

/-- `Uploader.processChunk`: save the payload to the temp chunk path,
register it, and when the set became complete, stitch and (optionally)
clean up. Returns none when the Go code would panic (AddChunk index out of
range), otherwise the post-call state and the response or error. -/
def Uploader.processChunk (cfg : Config) (eff : IoFlags) (sys : Sys)
    (info : ChunkInfo) (payload : List Nat) :
    Option (Sys × Except String UploadResponse) :=
  if !eff.mkdirTempOk then some (sys, Except.error "error creating temp directory") else
  let chunkPath := chunkPathOf cfg.TempDir info.FileName info.ChunkIndex
  if !eff.createTempOk then some (sys, Except.error "error creating temp file") else
  if !eff.copyTempOk then
    some ({ sys with fs := Store.write sys.fs chunkPath [] }, Except.error "error saving chunk")
  else
  let fs1 := Store.write sys.fs chunkPath payload
  match FileManager.AddChunk sys.fm info.FileName chunkPath info.ChunkIndex info.TotalChunks with
  | (_, true) => none
  | (fm1, false) =>
    let sys1 : Sys := { fs := fs1, fm := fm1 }
    if FileManager.IsComplete sys1.fm info.FileName then
      match Uploader.stitchFile cfg sys1 info.FileName info.FileSize with
      | (sys2, Except.error e) => some (sys2, Except.error ("error stitching file: " ++ e))
      | (sys2, Except.ok finalPath) =>
        let sys3 := if cfg.AutoCleanup then Uploader.cleanupChunks sys2 info.FileName else sys2
        some (sys3, Except.ok
          { Status := "complete", FileName := info.FileName, ChunkIndex := 0,
            TotalChunks := 0, Message := "File uploaded and stitched successfully",
            FilePath := finalPath, ReceivedSize := info.FileSize })
    else
      some (sys1, Except.ok
        { Status := "chunk_received", FileName := info.FileName,
          ChunkIndex := info.ChunkIndex, TotalChunks := info.TotalChunks,
          Message := "", FilePath := "", ReceivedSize := 0 })

/-- An inbound multipart request as the handler observes it: the method, the
outcome of form parsing, the four form fields (raw strings), the outcome of
fetching the "chunk" file part, and that part's bytes. -/
structure Request where
  method : String
  parseFormOk : Bool
  fileName : String
  chunkIndexStr : String
  totalChunksStr : String
  fileSizeStr : String
  formFileOk : Bool
  payload : List Nat

/-- Decimal digit accumulation for the strconv model; none on a non-digit. -/
def parseDigits : List Char → Nat → Option Nat
  | [], acc => some acc
  | c :: rest, acc =>
    if '0' ≤ c ∧ c ≤ '9' then parseDigits rest (acc * 10 + (c.toNat - 48))
    else none

/-- Models `strconv.Atoi` / `strconv.ParseInt(s, 10, 64)`: optional sign,
then at least one decimal digit (the int64 range check is not modelled). -/
def goParseInt (s : String) : Option Int :=
  match s.data with
  | [] => none
  | '+' :: rest =>
    if rest = [] then none else (parseDigits rest 0).map Int.ofNat
  | '-' :: rest =>
    if rest = [] then none else (parseDigits rest 0).map (fun n => -(n : Int))
  | l => (parseDigits l 0).map Int.ofNat

/-- `Uploader.extractChunkInfo`: field validation in source order. -/
def Uploader.extractChunkInfo (r : Request) : Except String ChunkInfo :=
  if r.fileName = "" then Except.error "fileName is required"
  else
    match goParseInt r.chunkIndexStr with
    | none => Except.error "invalid chunkIndex"
    | some ci =>
      match goParseInt r.totalChunksStr with
      | none => Except.error "invalid totalChunks"
      | some tc =>
        match goParseInt r.fileSizeStr with
        | none => Except.error "invalid fileSize"
        | some fsz =>
          Except.ok { FileName := r.fileName, ChunkIndex := ci,
                      TotalChunks := tc, FileSize := fsz }

/-- `Uploader.HandleUpload`: method check, form parse, field extraction,
file part fetch, then processChunk. -/
def Uploader.HandleUpload (cfg : Config) (eff : IoFlags) (sys : Sys) (r : Request) :
    Option (Sys × Except String UploadResponse) :=
  if r.method ≠ "POST" then some (sys, Except.error "method not allowed")
  else if !r.parseFormOk then some (sys, Except.error "error parsing form")
  else
    match Uploader.extractChunkInfo r with
    | Except.error e => some (sys, Except.error e)
    | Except.ok info =>
      if !r.formFileOk then some (sys, Except.error "error getting file")
      else Uploader.processChunk cfg eff sys info r.payload

/-- Drive a whole upload: submit, via processChunk, one chunk per element of
`order` (the chunk index, its payload given by `payloads`), all declaring
the same file name, total count and expected size; stop reporting none if
any submission panics or errors. -/
def runAll (cfg : Config) (f : String) (n : Int) (size : Int)
    (payloads : Nat → List Nat) : Sys → List Nat → Option Sys
  | sys, [] => some sys
  | sys, i :: rest =>
    match Uploader.processChunk cfg ioAllOk sys
        { FileName := f, ChunkIndex := (i : Int), TotalChunks := n, FileSize := size }
        (payloads i) with
    | some (sys1, Except.ok _) => runAll cfg f n size payloads sys1 rest
    | _ => none

/-! ### Legacy helper (lib.go): stored-name generation -/

/-- lib.go's stitchFile output naming (lines 31-35): the stored name is a
fresh GUID (passed in here, since uuid.New() is nondeterministic) plus the
original name's extension, and the final path joins "./uploads" with it. -/
def legacyStoredName (fileName guid : String) : String :=
  guid ++ filepathExt fileName

/-- The final artifact path the legacy stitchFile creates. -/
def legacyFinalPath (fileName guid : String) : String :=
  filepathJoin "./uploads" (legacyStoredName fileName guid)

/-! ### Heap model of the slice-valued chunks map

lib.go's GetChunks returns the map's slice itself while the instance-based
file's GetChunks returns a fresh copy; to state that difference the slices
are modelled as heap references: the chunks map binds a file name to a
slice id, and slice contents live in a heap indexed by id. -/

/-- The slice heap: contents per id, plus the next fresh id. -/
structure SliceHeap where
  data : Nat → List String
  next : Nat

/-- Allocate a fresh slice. -/
def SliceHeap.alloc (h : SliceHeap) (l : List String) : SliceHeap × Nat :=
  ({ data := fun j => if j = h.next then l else h.data j, next := h.next + 1 }, h.next)

/-- Overwrite the contents of an existing slice. -/
def SliceHeap.writeAt (h : SliceHeap) (id : Nat) (l : List String) : SliceHeap :=
  { h with data := fun j => if j = id then l else h.data j }

/-- FileManager state in the heap model: the heap and the chunks map as an
association list from file name to slice id (a list keeps every state
concretely evaluable). -/
structure HFM where
  heap : SliceHeap
  entries : List (String × Nat)

/-- Association-list lookup. -/
def assocFind (l : List (String × Nat)) (k : String) : Option Nat :=
  (l.find? (fun e => e.1 == k)).map (fun e => e.2)

/-- Association-list overwrite-or-add. -/
def assocSet (l : List (String × Nat)) (k : String) (v : Nat) : List (String × Nat) :=
  match l with
  | [] => [(k, v)]
  | e :: rest => if e.1 = k then (k, v) :: rest else e :: assocSet rest k v

/-- `AddChunk` over the heap model (same control flow as
FileManager.AddChunk; the Bool is the panic flag). -/
def HFM.AddChunk (s : HFM) (fileName chunkPath : String)
    (chunkIndex totalChunks : Int) : HFM × Bool :=
  match assocFind s.entries fileName with
  | some id =>
    let l := s.heap.data id
    if 0 ≤ chunkIndex ∧ chunkIndex < (l.length : Int) then
      ({ s with heap := s.heap.writeAt id (l.set chunkIndex.toNat chunkPath) }, false)
    else (s, true)
  | none =>
    if totalChunks < 0 then (s, true)
    else
      let fresh := List.replicate totalChunks.toNat ""
      let (h1, id) := s.heap.alloc fresh
      let s1 : HFM := { heap := h1, entries := assocSet s.entries fileName id }
      if 0 ≤ chunkIndex ∧ chunkIndex < totalChunks then
        ({ s1 with heap := h1.writeAt id (fresh.set chunkIndex.toNat chunkPath) }, false)
      else (s1, true)

/-- lib.go's `GetChunks` (lines 147-151): returns the stored slice itself —
in the heap model, the entry's id, with no heap change (none models the
nil slice for an unknown file). -/
def HFM.GetChunksLive (s : HFM) (fileName : String) : HFM × Option Nat :=
  (s, assocFind s.entries fileName)

/-- The instance-based file's `GetChunks` (lines 105-114): allocates a fresh
slice, copies the contents over, and returns the fresh reference. -/
def HFM.GetChunksCopy (s : HFM) (fileName : String) : HFM × Option Nat :=
  match assocFind s.entries fileName with
  | none => (s, none)
  | some id =>
    let (h1, nid) := s.heap.alloc (s.heap.data id)
    ({ s with heap := h1 }, some nid)

/-- Heap-model well-formedness: every slice id bound in the entries list has
been allocated. -/
def HFM.wf (s : HFM) : Prop :=
  ∀ e ∈ s.entries, e.2 < s.heap.next

instance (s : HFM) : Decidable s.wf := by
  unfold HFM.wf; infer_instance

/-! ### Proof-support definitions -/

/-- Value of a digit list read in base 10 (left inverse of decRepr). -/
def decVal (l : List Char) : Nat :=
  l.foldl (fun a c => a * 10 + (c.toNat - 48)) 0

/-- The status tag of a processChunk / HandleUpload outcome ("" on error). -/
def respStatus : Except String UploadResponse → String
  | Except.ok r => r.Status
  | Except.error _ => ""

/-- Invariant of a partially accumulated upload for file `f` with `n` chunks
and per-index payloads, after the submissions for the indices in `done`
(each below `n`) and no others: either nothing has been submitted yet and
the index has no entry, or the entry has length `n`, a slot holds the chunk
path exactly for the done indices, and each done chunk file holds its
payload. -/
def UploadInv (cfg : Config) (f : String) (n : Nat) (payloads : Nat → List Nat)
    (done : List Nat) (sys : Sys) : Prop :=
  (done = [] ∧ sys.fm f = none) ∨
  (done ≠ [] ∧ ∃ l, sys.fm f = some l ∧ l.length = n ∧
    (∀ j, j < n →
      l[j]? = some (if j ∈ done then chunkPathOf cfg.TempDir f (j : Int) else "")) ∧
    (∀ j ∈ done, sys.fs (chunkPathOf cfg.TempDir f (j : Int)) = some (payloads j)))

/-! ## Theorems -/

/-! ### Store lemmas -/

theorem Store.write_self {α : Type} (m : Store α) (k : String) (v : α) :
    Store.write m k v k = some v := by
  simp [Store.write]

theorem Store.write_ne {α : Type} (m : Store α) (k x : String) (v : α) (h : x ≠ k) :
    Store.write m k v x = m x := by
  simp [Store.write, h]

theorem Store.erase_self {α : Type} (m : Store α) (k : String) :
    Store.erase m k k = none := by
  simp [Store.erase]

theorem Store.erase_ne {α : Type} (m : Store α) (k x : String) (h : x ≠ k) :
    Store.erase m k x = m x := by
  simp [Store.erase, h]

/-- The cleanup fold never resurrects a deleted file. -/
theorem cleanupFold_none (chunks : List String) :
    ∀ (fs : FS) (q : String), fs q = none →
      (chunks.foldl (fun fs p => if p != "" then Store.erase fs p else fs) fs) q = none := by
  induction chunks with
  | nil => intro fs q h; simpa using h
  | cons p rest ih =>
    intro fs q h
    simp only [List.foldl_cons]
    by_cases hp : p != ""
    · simp only [hp, if_true]
      apply ih
      by_cases hq : q = p
      · subst hq; exact Store.erase_self fs q
      · rw [Store.erase_ne fs p q hq]; exact h
    · simp only [hp, if_false]; exact ih fs q h

/-- The cleanup fold deletes every nonempty path of the list. -/
theorem cleanupFold_erases (chunks : List String) :
    ∀ (fs : FS) (q : String), q ∈ chunks → q ≠ "" →
      (chunks.foldl (fun fs p => if p != "" then Store.erase fs p else fs) fs) q = none := by
  induction chunks with
  | nil => intro fs q h; simp at h
  | cons p rest ih =>
    intro fs q hmem hq
    simp only [List.foldl_cons]
    rcases List.mem_cons.mp hmem with hqp | hqrest
    · subst hqp
      have hp : (q != "") = true := by simpa using hq
      simp only [hp, if_true]
      exact cleanupFold_none rest _ q (Store.erase_self fs q)
    · by_cases hp : p != "" <;> simp only [hp, if_true, if_false] <;>
        exact ih _ q hqrest hq

/-- The cleanup fold leaves every path outside the list untouched. -/
theorem cleanupFold_other (chunks : List String) :
    ∀ (fs : FS) (q : String), q ∉ chunks →
      (chunks.foldl (fun fs p => if p != "" then Store.erase fs p else fs) fs) q = fs q := by
  induction chunks with
  | nil => intro fs q _; rfl
  | cons p rest ih =>
    intro fs q hq
    have hqp : q ≠ p := fun h => hq (h ▸ List.mem_cons_self p rest)
    have hqrest : q ∉ rest := fun h => hq (List.mem_cons_of_mem p h)
    simp only [List.foldl_cons]
    by_cases hp : p != ""
    · simp only [hp, if_true]; rw [ih _ q hqrest, Store.erase_ne fs p q hqp]
    · simp only [hp, if_false]; exact ih fs q hqrest

/-! ### Decimal renderer lemmas -/

theorem digitChar_toNat (n : Nat) : (digitChar n).toNat = 48 + n % 10 := by
  have h : n % 10 < 10 := Nat.mod_lt n (by decide)
  unfold digitChar
  split <;> simp_all <;> omega

theorem decVal_decReprAux (n : Nat) : decVal (decReprAux n) = n := by
  induction n using Nat.strong_induction_on with
  | _ n ih =>
    rw [decReprAux]
    split
    · simp [decVal, *]
    · rename_i h
      have hlt : n / 10 < n := Nat.div_lt_self (Nat.pos_of_ne_zero h) (by decide)
      have hrec := ih (n / 10) hlt
      unfold decVal at hrec ⊢
      rw [List.foldl_append, hrec]
      simp only [List.foldl_cons, List.foldl_nil, digitChar_toNat]
      omega

theorem decReprAux_inj {m n : Nat} (h : decReprAux m = decReprAux n) : m = n := by
  have hm := decVal_decReprAux m
  have hn := decVal_decReprAux n
  rw [h] at hm
  omega

theorem decRepr_inj {m n : Nat} (h : decRepr m = decRepr n) : m = n := by
  unfold decRepr at h
  by_cases hm : m = 0 <;> by_cases hn : n = 0 <;> simp [hm, hn] at h ⊢
  · have := decVal_decReprAux n
    rw [← h] at this
    simp [decVal] at this
    omega
  · have := decVal_decReprAux m
    rw [h] at this
    simp [decVal] at this
    omega
  · exact decReprAux_inj h

theorem decReprAux_digits (n : Nat) :
    ∀ c ∈ decReprAux n, 48 ≤ c.toNat ∧ c.toNat ≤ 57 := by
  induction n using Nat.strong_induction_on with
  | _ n ih =>
    rw [decReprAux]
    split
    · intro c hc; simp at hc
    · rename_i h
      intro c hc
      rcases List.mem_append.mp hc with h1 | h2
      · exact ih (n / 10) (Nat.div_lt_self (Nat.pos_of_ne_zero h) (by decide)) c h1
      · have : c = digitChar n := by simpa using h2
        subst this
        have := digitChar_toNat n
        have : n % 10 < 10 := Nat.mod_lt n (by decide)
        omega

theorem decRepr_digits (n : Nat) :
    ∀ c ∈ decRepr n, 48 ≤ c.toNat ∧ c.toNat ≤ 57 := by
  unfold decRepr
  split
  · intro c hc
    have : c = '0' := by simpa using hc
    subst this; decide
  · exact decReprAux_digits n

theorem slash_not_mem_decRepr (n : Nat) : '/' ∉ decRepr n := by
  intro h
  have h2 := decRepr_digits n '/' h
  have h3 : ('/').toNat = 47 := by decide
  omega

theorem decRepr_ne_nil (n : Nat) : decRepr n ≠ [] := by
  unfold decRepr
  split
  · simp
  · rename_i h
    rw [decReprAux]
    simp [h]

/-! ### Path lemmas -/

/-- No list of the shape `g ++ '/' :: u` equals itself prefixed with a
nonempty slash-free block whose removal re-aligns the same `g` and slash
(stated over reversed character lists; this is the combinatorial heart of
final-path vs chunk-path separation). -/
theorem rev_collision (s : List Char) (hs : s ≠ []) (hslash : '/' ∉ s) :
    ∀ (g u t : List Char), g ++ '/' :: u ≠ s ++ (g ++ '/' :: t) := by
  have hspos : 0 < s.length := List.length_pos.mpr hs
  have short : ∀ (g u t : List Char), g.length < s.length →
      g ++ '/' :: u ≠ s ++ (g ++ '/' :: t) := by
    intro g u t hlen heq
    have heq' : (g ++ ['/']) ++ u = s ++ (g ++ '/' :: t) := by
      simpa [List.append_assoc] using heq
    have h1 : ((g ++ ['/']) ++ u).take (g.length + 1) = g ++ ['/'] := by
      have h0 := List.take_left (g ++ ['/']) u
      simpa using h0
    have h2 : (s ++ (g ++ '/' :: t)).take (g.length + 1) = s.take (g.length + 1) :=
      List.take_append_of_le_length (by omega)
    rw [heq', h2] at h1
    have hmem : '/' ∈ s.take (g.length + 1) := by
      rw [h1]; simp
    exact hslash (List.mem_of_mem_take hmem)
  suffices H : ∀ (N : Nat) (g u t : List Char), g.length ≤ N →
      g ++ '/' :: u ≠ s ++ (g ++ '/' :: t) by
    exact fun g u t => H g.length g u t le_rfl
  intro N
  induction N with
  | zero =>
    intro g u t hg
    exact short g u t (by omega)
  | succ N ih =>
    intro g u t hg heq
    rcases Nat.lt_or_ge g.length s.length with hlen | hlen
    · exact short g u t hlen heq
    · have htake : g.take s.length = s := by
        have h1 : (g ++ '/' :: u).take s.length = g.take s.length :=
          List.take_append_of_le_length hlen
        have h2 : (s ++ (g ++ '/' :: t)).take s.length = s := List.take_left s _
        rw [heq, h2] at h1
        exact h1.symm
      have hg' : g = s ++ g.drop s.length := by
        conv_lhs => rw [← List.take_append_drop s.length g]
        rw [htake]
      have hrlen : (g.drop s.length).length ≤ N := by
        have := List.length_drop s.length g
        omega
      rw [hg'] at heq
      simp only [List.append_assoc] at heq
      have heq2 := List.append_cancel_left heq
      simp only [← List.append_assoc] at heq2
      exact ih (g.drop s.length) u t hrlen (by simpa [List.append_assoc] using heq2)

theorem filepathJoin_data (U f : String) :
    (filepathJoin U f).data = U.data ++ '/' :: f.data := by
  have hslash : ("/" : String).data = ['/'] := rfl
  unfold filepathJoin
  simp [String.data_append, hslash]

theorem intStr_nonneg (i : Int) (hi : 0 ≤ i) :
    intStr i = String.mk (decRepr i.toNat) := by
  unfold intStr
  rw [if_neg (by omega)]

theorem chunkPathOf_data (T f : String) (i : Int) (hi : 0 ≤ i) :
    (chunkPathOf T f i).data =
      T.data ++ '/' :: (f.data ++ ("_chunk_".data ++ decRepr i.toNat)) := by
  unfold chunkPathOf
  rw [intStr_nonneg i hi, filepathJoin_data]
  simp [String.data_append, List.append_assoc]

/-- The final artifact path never coincides with any temp chunk path,
whatever the configured directories, the file name and the index are. -/
theorem finalPath_ne_chunkPath (U T f : String) (i : Int) (hi : 0 ≤ i) :
    filepathJoin U f ≠ chunkPathOf T f i := by
  intro heq
  have hdata := congrArg String.data heq
  rw [filepathJoin_data, chunkPathOf_data T f i hi] at hdata
  have hrev := congrArg List.reverse hdata
  simp only [List.reverse_append, List.reverse_cons, List.append_assoc,
    List.singleton_append, List.cons_append, List.nil_append] at hrev
  refine rev_collision ((decRepr i.toNat).reverse ++ "_chunk_".data.reverse) ?_ ?_
    f.data.reverse U.data.reverse T.data.reverse ?_
  · have := decRepr_ne_nil i.toNat
    simp [this]
  · intro hmem
    rcases List.mem_append.mp hmem with h1 | h1
    · exact slash_not_mem_decRepr i.toNat (List.mem_reverse.mp h1)
    · revert h1; decide
  · simpa [List.append_assoc] using hrev

/-- Distinct chunk indices give distinct temp chunk paths. -/
theorem chunkPathOf_inj (T f : String) {i j : Int} (hi : 0 ≤ i) (hj : 0 ≤ j)
    (h : chunkPathOf T f i = chunkPathOf T f j) : i = j := by
  have hd := congrArg String.data h
  rw [chunkPathOf_data T f i hi, chunkPathOf_data T f j hj] at hd
  have h1 := List.append_cancel_left hd
  have h2 : f.data ++ ("_chunk_".data ++ decRepr i.toNat)
      = f.data ++ ("_chunk_".data ++ decRepr j.toNat) := by
    injection h1
  have h3 := List.append_cancel_left (List.append_cancel_left h2)
  have h4 := decRepr_inj h3
  omega

/-- Nat-indexed corollary of chunk path injectivity. -/
theorem chunkPathOf_inj_nat (T f : String) {i j : Nat}
    (h : chunkPathOf T f (i : Int) = chunkPathOf T f (j : Int)) : i = j := by
  have h2 := chunkPathOf_inj T f (by omega) (by omega) h
  exact_mod_cast h2

/-- Chunk paths are never the empty string (no slot confusion). -/
theorem chunkPathOf_ne_empty (T f : String) (i : Int) (hi : 0 ≤ i) :
    chunkPathOf T f i ≠ "" := by
  intro h
  have hd := congrArg String.data h
  rw [chunkPathOf_data T f i hi] at hd
  have hnil : ("" : String).data = [] := rfl
  rw [hnil] at hd
  simp at hd

/-! ### Assembler loop lemmas -/

/-- When every slot is a nonempty path distinct from the final path and
readable in the file system, the stitch loop succeeds, the final file
accumulates the concatenation of the chunk contents in slot order, and no
other file changes. -/
theorem stitchLoop_ok (fn P : String) (contentOf : String → List Nat) :
    ∀ (chunks : List String) (fs : FS) (i : Nat) (c0 : List Nat),
      fs P = some c0 →
      (∀ p ∈ chunks, p ≠ "" ∧ p ≠ P ∧ fs p = some (contentOf p)) →
      ∃ fs', stitchLoop fs P fn chunks i = (fs', Except.ok ()) ∧
        fs' P = some (c0 ++ (chunks.map contentOf).flatten) ∧
        ∀ q, q ≠ P → fs' q = fs q := by
  intro chunks
  induction chunks with
  | nil =>
    intro fs i c0 hP _
    exact ⟨fs, rfl, by simp [hP], fun q _ => rfl⟩
  | cons p rest ih =>
    intro fs i c0 hP h
    obtain ⟨hpne, hpP, hpread⟩ := h p (List.mem_cons_self p rest)
    have hstep : stitchLoop fs P fn (p :: rest) i
        = stitchLoop (FS.append fs P (contentOf p)) P fn rest (i + 1) := by
      rw [stitchLoop, if_neg hpne, hpread]
    have hP' : (FS.append fs P (contentOf p)) P = some (c0 ++ contentOf p) := by
      unfold FS.append
      rw [Store.write_self, hP]
      rfl
    have hrest : ∀ q ∈ rest, q ≠ "" ∧ q ≠ P ∧
        (FS.append fs P (contentOf p)) q = some (contentOf q) := by
      intro q hq
      obtain ⟨h1, h2, h3⟩ := h q (List.mem_cons_of_mem p hq)
      refine ⟨h1, h2, ?_⟩
      unfold FS.append
      rw [Store.write_ne _ _ _ _ h2]
      exact h3
    obtain ⟨fs', hloop, hfsP, hother⟩ := ih (FS.append fs P (contentOf p)) (i + 1)
      (c0 ++ contentOf p) hP' hrest
    refine ⟨fs', by rw [hstep, hloop], ?_, ?_⟩
    · rw [hfsP]
      simp [List.append_assoc]
    · intro q hq
      rw [hother q hq]
      unfold FS.append
      rw [Store.write_ne _ _ _ _ hq]

/-! ### FileManager lemmas -/

theorem AddChunk_some_inbounds (fm : FileManager) (f p : String) (i n : Int)
    (l : List String) (hl : fm f = some l) (h0 : 0 ≤ i) (hlt : i < (l.length : Int)) :
    FileManager.AddChunk fm f p i n = (Store.write fm f (l.set i.toNat p), false) := by
  unfold FileManager.AddChunk
  rw [hl]
  show (if 0 ≤ i ∧ i < (l.length : Int)
      then (Store.write fm f (l.set i.toNat p), false) else (fm, true))
    = (Store.write fm f (l.set i.toNat p), false)
  rw [if_pos ⟨h0, hlt⟩]

theorem AddChunk_none_inbounds (fm : FileManager) (f p : String) (i n : Int)
    (hl : fm f = none) (h0 : 0 ≤ i) (hlt : i < n) :
    FileManager.AddChunk fm f p i n =
      (Store.write fm f ((List.replicate n.toNat "").set i.toNat p), false) := by
  unfold FileManager.AddChunk
  rw [hl]
  show (if n < 0 then (fm, true)
      else if 0 ≤ i ∧ i < n
        then (Store.write fm f ((List.replicate n.toNat "").set i.toNat p), false)
        else (Store.write fm f (List.replicate n.toNat ""), true))
    = (Store.write fm f ((List.replicate n.toNat "").set i.toNat p), false)
  rw [if_neg (by omega : ¬ n < 0), if_pos ⟨h0, hlt⟩]

theorem IsComplete_some (fm : FileManager) (f : String) (l : List String)
    (hl : fm f = some l) :
    FileManager.IsComplete fm f = l.all (fun c => c != "") := by
  unfold FileManager.IsComplete
  rw [hl]

theorem IsComplete_false_of_empty_slot (fm : FileManager) (f : String)
    (l : List String) (j : Nat) (hl : fm f = some l) (hj : l[j]? = some "") :
    FileManager.IsComplete fm f = false := by
  rw [IsComplete_some fm f l hl]
  have hmem : "" ∈ l := List.getElem?_mem hj
  rw [Bool.eq_false_iff]
  intro hall
  have := List.all_eq_true.mp hall "" hmem
  simp at this

theorem IsComplete_true_of_mem (fm : FileManager) (f : String) (l : List String)
    (hl : fm f = some l) (h : ∀ c ∈ l, c ≠ "") :
    FileManager.IsComplete fm f = true := by
  rw [IsComplete_some fm f l hl]
  simp only [List.all_eq_true]
  intro c hc
  simpa using h c hc

/-! ### stitchFile lemmas -/

/-- Successful assembly: with every slot nonempty, distinct from the final
path and readable, and the declared size matching, stitchFile returns the
final path, writes the concatenation there, and touches nothing else. -/
theorem stitchFile_ok (cfg : Config) (sys : Sys) (f : String) (S : Int)
    (l : List String) (contentOf : String → List Nat) (hl : sys.fm f = some l)
    (hread : ∀ p ∈ l, p ≠ "" ∧ p ≠ filepathJoin cfg.UploadsDir f ∧
      sys.fs p = some (contentOf p))
    (hS : (((l.map contentOf).flatten.length : Nat) : Int) = S) :
    ∃ fs1, Uploader.stitchFile cfg sys f S
        = ({ sys with fs := fs1 }, Except.ok (filepathJoin cfg.UploadsDir f)) ∧
      fs1 (filepathJoin cfg.UploadsDir f) = some (l.map contentOf).flatten ∧
      ∀ q, q ≠ filepathJoin cfg.UploadsDir f → fs1 q = sys.fs q := by
  have hchunks : FileManager.GetChunks sys.fm f = l := by
    unfold FileManager.GetChunks
    rw [hl]
    rfl
  have hP0 : Store.write sys.fs (filepathJoin cfg.UploadsDir f) []
      (filepathJoin cfg.UploadsDir f) = some [] := Store.write_self _ _ _
  have hread' : ∀ p ∈ l, p ≠ "" ∧ p ≠ filepathJoin cfg.UploadsDir f ∧
      Store.write sys.fs (filepathJoin cfg.UploadsDir f) [] p = some (contentOf p) := by
    intro p hp
    obtain ⟨h1, h2, h3⟩ := hread p hp
    exact ⟨h1, h2, by rw [Store.write_ne _ _ _ _ h2]; exact h3⟩
  obtain ⟨fs1, hloop, hfsP, hother⟩ :=
    stitchLoop_ok f (filepathJoin cfg.UploadsDir f) contentOf l
      (Store.write sys.fs (filepathJoin cfg.UploadsDir f) []) 0 [] hP0 hread'
  refine ⟨fs1, ?_, by simpa using hfsP, ?_⟩
  · have hlen : (((fs1 (filepathJoin cfg.UploadsDir f)).getD []).length : Int) = S := by
      rw [hfsP]
      simpa using hS
    simp only [Uploader.stitchFile, hchunks, hloop, hlen]
    rw [if_neg (fun h => h rfl)]
  · intro q hq
    rw [hother q hq, Store.write_ne _ _ _ _ hq]

/-- Failed assembly on size mismatch: with every slot nonempty, distinct
from the final path and readable, but the declared size different from the
accumulated byte count, stitchFile fails with the size-mismatch message
carrying both counts and deletes the final artifact. -/
theorem stitchFile_mismatch (cfg : Config) (sys : Sys) (f : String) (S : Int)
    (l : List String) (contentOf : String → List Nat) (hl : sys.fm f = some l)
    (hread : ∀ p ∈ l, p ≠ "" ∧ p ≠ filepathJoin cfg.UploadsDir f ∧
      sys.fs p = some (contentOf p))
    (hS : (((l.map contentOf).flatten.length : Nat) : Int) ≠ S) :
    (Uploader.stitchFile cfg sys f S).2
        = Except.error ("file size mismatch: expected " ++ intStr S ++ ", got "
            ++ intStr ((l.map contentOf).flatten.length : Int)) ∧
    (Uploader.stitchFile cfg sys f S).1.fs (filepathJoin cfg.UploadsDir f) = none := by
  have hchunks : FileManager.GetChunks sys.fm f = l := by
    unfold FileManager.GetChunks
    rw [hl]
    rfl
  have hP0 : Store.write sys.fs (filepathJoin cfg.UploadsDir f) []
      (filepathJoin cfg.UploadsDir f) = some [] := Store.write_self _ _ _
  have hread' : ∀ p ∈ l, p ≠ "" ∧ p ≠ filepathJoin cfg.UploadsDir f ∧
      Store.write sys.fs (filepathJoin cfg.UploadsDir f) [] p = some (contentOf p) := by
    intro p hp
    obtain ⟨h1, h2, h3⟩ := hread p hp
    exact ⟨h1, h2, by rw [Store.write_ne _ _ _ _ h2]; exact h3⟩
  obtain ⟨fs1, hloop, hfsP, hother⟩ :=
    stitchLoop_ok f (filepathJoin cfg.UploadsDir f) contentOf l
      (Store.write sys.fs (filepathJoin cfg.UploadsDir f) []) 0 [] hP0 hread'
  have heval : Uploader.stitchFile cfg sys f S
      = ({ sys with fs := Store.erase fs1 (filepathJoin cfg.UploadsDir f) },
         Except.error ("file size mismatch: expected " ++ intStr S ++ ", got "
           ++ intStr ((l.map contentOf).flatten.length : Int))) := by
    have hlen : (((fs1 (filepathJoin cfg.UploadsDir f)).getD []).length : Int)
        = (((l.map contentOf).flatten.length : Nat) : Int) := by
      rw [hfsP]
      simp
    simp only [Uploader.stitchFile, hchunks, hloop, hlen]
    rw [if_pos hS]
  rw [heval]
  exact ⟨rfl, Store.erase_self _ _⟩

/-! ### processChunk evaluation lemmas -/

/-- processChunk with all chunk-saving I/O succeeding, written without the
intermediate lets so the branch points are exposed to rewriting. -/
theorem processChunk_eq (cfg : Config) (sys : Sys) (info : ChunkInfo)
    (payload : List Nat) :
    Uploader.processChunk cfg ioAllOk sys info payload =
      (match FileManager.AddChunk sys.fm info.FileName
          (chunkPathOf cfg.TempDir info.FileName info.ChunkIndex)
          info.ChunkIndex info.TotalChunks with
       | (_, true) => none
       | (fm1, false) =>
         if FileManager.IsComplete fm1 info.FileName then
           match Uploader.stitchFile cfg
               { fs := Store.write sys.fs
                   (chunkPathOf cfg.TempDir info.FileName info.ChunkIndex) payload,
                 fm := fm1 } info.FileName info.FileSize with
           | (sys2, Except.error e) =>
             some (sys2, Except.error ("error stitching file: " ++ e))
           | (sys2, Except.ok finalPath) =>
             some ((if cfg.AutoCleanup
                 then Uploader.cleanupChunks sys2 info.FileName else sys2),
               Except.ok
                 { Status := "complete", FileName := info.FileName,
                   ChunkIndex := 0, TotalChunks := 0,
                   Message := "File uploaded and stitched successfully",
                   FilePath := finalPath, ReceivedSize := info.FileSize })
         else
           some ({ fs := Store.write sys.fs
                     (chunkPathOf cfg.TempDir info.FileName info.ChunkIndex) payload,
                   fm := fm1 },
             Except.ok
               { Status := "chunk_received", FileName := info.FileName,
                 ChunkIndex := info.ChunkIndex, TotalChunks := info.TotalChunks,
                 Message := "", FilePath := "", ReceivedSize := 0 })) := rfl

/-- Evaluation of processChunk when the set does not become complete. -/
theorem processChunk_incomplete (cfg : Config) (sys : Sys) (info : ChunkInfo)
    (payload : List Nat) (fm1 : FileManager)
    (hadd : FileManager.AddChunk sys.fm info.FileName
        (chunkPathOf cfg.TempDir info.FileName info.ChunkIndex)
        info.ChunkIndex info.TotalChunks = (fm1, false))
    (hcomp : FileManager.IsComplete fm1 info.FileName = false) :
    Uploader.processChunk cfg ioAllOk sys info payload =
      some ({ fs := Store.write sys.fs
                (chunkPathOf cfg.TempDir info.FileName info.ChunkIndex) payload,
              fm := fm1 },
        Except.ok
          { Status := "chunk_received", FileName := info.FileName,
            ChunkIndex := info.ChunkIndex, TotalChunks := info.TotalChunks,
            Message := "", FilePath := "", ReceivedSize := 0 }) := by
  rw [processChunk_eq]
  simp only [hadd, hcomp]
  rfl

/-- Evaluation of processChunk when the set becomes complete and the stitch
succeeds. -/
theorem processChunk_complete (cfg : Config) (sys : Sys) (info : ChunkInfo)
    (payload : List Nat) (fm1 : FileManager) (sys2 : Sys) (finalP : String)
    (hadd : FileManager.AddChunk sys.fm info.FileName
        (chunkPathOf cfg.TempDir info.FileName info.ChunkIndex)
        info.ChunkIndex info.TotalChunks = (fm1, false))
    (hcomp : FileManager.IsComplete fm1 info.FileName = true)
    (hstitch : Uploader.stitchFile cfg
        { fs := Store.write sys.fs
            (chunkPathOf cfg.TempDir info.FileName info.ChunkIndex) payload,
          fm := fm1 } info.FileName info.FileSize = (sys2, Except.ok finalP)) :
    Uploader.processChunk cfg ioAllOk sys info payload =
      some ((if cfg.AutoCleanup then Uploader.cleanupChunks sys2 info.FileName else sys2),
        Except.ok
          { Status := "complete", FileName := info.FileName,
            ChunkIndex := 0, TotalChunks := 0,
            Message := "File uploaded and stitched successfully",
            FilePath := finalP, ReceivedSize := info.FileSize }) := by
  rw [processChunk_eq]
  simp only [hadd, hcomp, hstitch]
  rfl

/-! ### Accumulation step lemmas -/

/-- Registering the chunk for a fresh in-range index from an invariant state
succeeds without panic and yields an entry of length `n` whose slots track
`i :: done`. -/
theorem AddChunk_entry (cfg : Config) (f : String) (n : Nat)
    (payloads : Nat → List Nat) (done : List Nat) (sys : Sys) (i : Nat)
    (hInv : UploadInv cfg f n payloads done sys) (hi : i < n) :
    ∃ fm1 l1,
      FileManager.AddChunk sys.fm f (chunkPathOf cfg.TempDir f (i : Int))
          (i : Int) (n : Int) = (fm1, false) ∧
      fm1 f = some l1 ∧ l1.length = n ∧
      (∀ j, j < n → l1[j]? = some
        (if j ∈ i :: done then chunkPathOf cfg.TempDir f (j : Int) else "")) := by
  rcases hInv with ⟨hd, hnone⟩ | ⟨_, l, hl, hlen, hslot, _⟩
  · subst hd
    have hadd := AddChunk_none_inbounds sys.fm f
      (chunkPathOf cfg.TempDir f (i : Int)) (i : Int) (n : Int) hnone
      (by omega) (by exact_mod_cast hi)
    simp only [Int.toNat_ofNat] at hadd
    refine ⟨_, _, hadd, Store.write_self _ _ _, by simp, ?_⟩
    intro j hj
    by_cases hji : j = i
    · subst hji
      rw [List.getElem?_set_eq_of_lt _ (by simpa using hi)]
      simp
    · rw [List.getElem?_set_ne (fun h => hji h.symm)]
      rw [List.getElem?_replicate]
      rw [if_pos hj, if_neg (by simp [hji])]
  · have hadd := AddChunk_some_inbounds sys.fm f
      (chunkPathOf cfg.TempDir f (i : Int)) (i : Int) (n : Int) l hl
      (by omega) (by rw [hlen]; exact_mod_cast hi)
    simp only [Int.toNat_ofNat] at hadd
    refine ⟨_, _, hadd, Store.write_self _ _ _, by simp [hlen], ?_⟩
    intro j hj
    by_cases hji : j = i
    · subst hji
      rw [List.getElem?_set_eq_of_lt _ (by omega)]
      simp
    · rw [List.getElem?_set_ne (fun h => hji h.symm)]
      rw [hslot j hj]
      by_cases hjd : j ∈ done
      · rw [if_pos hjd, if_pos (List.mem_cons_of_mem i hjd)]
      · rw [if_neg hjd, if_neg (by simp [hji, hjd])]

/-- Submitting an in-range fresh index while at least one other index is
still missing: the chunk is accepted and the invariant advances. -/
theorem step_incomplete (cfg : Config) (f : String) (n : Nat)
    (payloads : Nat → List Nat) (S : Int) (done : List Nat) (sys : Sys) (i : Nat)
    (hInv : UploadInv cfg f n payloads done sys)
    (hi : i < n) (hnotin : i ∉ done)
    (hmiss : ∃ k, k < n ∧ k ∉ i :: done) :
    ∃ sys1, Uploader.processChunk cfg ioAllOk sys
        { FileName := f, ChunkIndex := (i : Int), TotalChunks := (n : Int),
          FileSize := S } (payloads i)
      = some (sys1, Except.ok
          { Status := "chunk_received", FileName := f, ChunkIndex := (i : Int),
            TotalChunks := (n : Int), Message := "", FilePath := "",
            ReceivedSize := 0 })
      ∧ UploadInv cfg f n payloads (i :: done) sys1 := by
  obtain ⟨fm1, l1, hadd, hl1, hlen1, hslot1⟩ :=
    AddChunk_entry cfg f n payloads done sys i hInv hi
  obtain ⟨k, hk, hknotin⟩ := hmiss
  have hcomp : FileManager.IsComplete fm1 f = false :=
    IsComplete_false_of_empty_slot fm1 f l1 k hl1
      (by rw [hslot1 k hk, if_neg hknotin])
  refine ⟨_, processChunk_incomplete cfg sys
      { FileName := f, ChunkIndex := (i : Int), TotalChunks := (n : Int),
        FileSize := S } (payloads i) fm1 hadd hcomp, ?_⟩
  right
  refine ⟨by simp, l1, hl1, hlen1, hslot1, ?_⟩
  intro j hj
  rcases List.mem_cons.mp hj with rfl | hjdone
  · exact Store.write_self _ _ _
  · have hji : j ≠ i := fun h => hnotin (h ▸ hjdone)
    have hpath : chunkPathOf cfg.TempDir f (j : Int)
        ≠ chunkPathOf cfg.TempDir f (i : Int) := by
      intro h
      exact hji (chunkPathOf_inj_nat cfg.TempDir f h)
    show Store.write sys.fs (chunkPathOf cfg.TempDir f (i : Int)) (payloads i)
        (chunkPathOf cfg.TempDir f (j : Int)) = some (payloads j)
    rw [Store.write_ne _ _ _ _ hpath]
    rcases hInv with ⟨hd, _⟩ | ⟨_, l, _, _, _, hfs⟩
    · subst hd; simp at hjdone
    · exact hfs j hjdone

/-- Submitting the last missing in-range index: the set completes, the
stitch succeeds, and the final artifact holds the payload concatenation in
index order (whether or not automatic cleanup is enabled). -/
theorem step_final (cfg : Config) (f : String) (n : Nat)
    (payloads : Nat → List Nat) (S : Int) (done : List Nat) (sys : Sys) (i : Nat)
    (hInv : UploadInv cfg f n payloads done sys)
    (hi : i < n) (hnotin : i ∉ done)
    (hcov : ∀ j, j < n → j ∈ i :: done)
    (hS : S = ((((List.range n).map payloads).flatten.length : Nat) : Int)) :
    ∃ sys1, Uploader.processChunk cfg ioAllOk sys
        { FileName := f, ChunkIndex := (i : Int), TotalChunks := (n : Int),
          FileSize := S } (payloads i)
      = some (sys1, Except.ok
          { Status := "complete", FileName := f, ChunkIndex := 0, TotalChunks := 0,
            Message := "File uploaded and stitched successfully",
            FilePath := filepathJoin cfg.UploadsDir f, ReceivedSize := S })
      ∧ sys1.fs (filepathJoin cfg.UploadsDir f)
          = some ((List.range n).map payloads).flatten := by
  obtain ⟨fm1, l1, hadd, hl1, hlen1, hslot1⟩ :=
    AddChunk_entry cfg f n payloads done sys i hInv hi
  have hslots : ∀ j, j < n →
      l1[j]? = some (chunkPathOf cfg.TempDir f (j : Int)) := by
    intro j hj
    rw [hslot1 j hj, if_pos (hcov j hj)]
  have hl1eq : l1 = (List.range n).map
      (fun j : Nat => chunkPathOf cfg.TempDir f (j : Int)) := by
    apply List.ext_getElem?
    intro k
    by_cases hk : k < n
    · rw [hslots k hk, List.getElem?_map, List.getElem?_range hk]
      rfl
    · rw [List.getElem?_eq_none (by omega),
        List.getElem?_eq_none (by simpa using (by omega : n ≤ k))]
  have hcomp : FileManager.IsComplete fm1 f = true := by
    apply IsComplete_true_of_mem fm1 f l1 hl1
    intro c hc
    rw [hl1eq] at hc
    obtain ⟨j, _, rfl⟩ := List.mem_map.mp hc
    exact chunkPathOf_ne_empty _ _ _ (by omega)
  have hfs1 : ∀ j, j < n →
      Store.write sys.fs (chunkPathOf cfg.TempDir f (i : Int)) (payloads i)
        (chunkPathOf cfg.TempDir f (j : Int)) = some (payloads j) := by
    intro j hj
    by_cases hji : j = i
    · subst hji
      exact Store.write_self _ _ _
    · have hpath : chunkPathOf cfg.TempDir f (j : Int)
          ≠ chunkPathOf cfg.TempDir f (i : Int) := by
        intro h
        exact hji (chunkPathOf_inj_nat cfg.TempDir f h)
      rw [Store.write_ne _ _ _ _ hpath]
      have hjd : j ∈ done := by
        rcases List.mem_cons.mp (hcov j hj) with h | h
        · exact absurd h hji
        · exact h
      rcases hInv with ⟨hd, _⟩ | ⟨_, l, _, _, _, hfs⟩
      · subst hd; simp at hjd
      · exact hfs j hjd
  have hread : ∀ p ∈ l1, p ≠ "" ∧ p ≠ filepathJoin cfg.UploadsDir f ∧
      (Store.write sys.fs (chunkPathOf cfg.TempDir f (i : Int)) (payloads i)) p
        = some ((Store.write sys.fs (chunkPathOf cfg.TempDir f (i : Int))
            (payloads i) p).getD []) := by
    intro p hp
    rw [hl1eq] at hp
    obtain ⟨j, hjmem, rfl⟩ := List.mem_map.mp hp
    have hjn : j < n := List.mem_range.mp hjmem
    refine ⟨chunkPathOf_ne_empty _ _ _ (by omega),
      fun h => finalPath_ne_chunkPath _ _ _ _ (by omega) h.symm, ?_⟩
    rw [hfs1 j hjn]
    rfl
  have hflat : (l1.map (fun p =>
      (Store.write sys.fs (chunkPathOf cfg.TempDir f (i : Int))
        (payloads i) p).getD [])).flatten
      = ((List.range n).map payloads).flatten := by
    rw [hl1eq, List.map_map]
    congr 1
    apply List.map_congr_left
    intro j hj
    have hjn : j < n := List.mem_range.mp hj
    simp [Function.comp, hfs1 j hjn]
  have hSmatch : (((l1.map (fun p =>
      (Store.write sys.fs (chunkPathOf cfg.TempDir f (i : Int))
        (payloads i) p).getD [])).flatten.length : Nat) : Int) = S := by
    rw [hflat, hS]
  obtain ⟨fs2, hstitch, hfsP, _⟩ := stitchFile_ok cfg
    { fs := Store.write sys.fs (chunkPathOf cfg.TempDir f (i : Int)) (payloads i),
      fm := fm1 } f S l1
    (fun p => (Store.write sys.fs (chunkPathOf cfg.TempDir f (i : Int))
      (payloads i) p).getD []) hl1 hread hSmatch
  refine ⟨_, processChunk_complete cfg sys
      { FileName := f, ChunkIndex := (i : Int), TotalChunks := (n : Int),
        FileSize := S } (payloads i) fm1 _ _ hadd hcomp hstitch, ?_⟩
  have hPnot : filepathJoin cfg.UploadsDir f ∉ l1 := by
    rw [hl1eq]
    intro hmem
    obtain ⟨j, _, heq⟩ := List.mem_map.mp hmem
    exact finalPath_ne_chunkPath cfg.UploadsDir cfg.TempDir f (j : Int)
      (by omega) heq.symm
  by_cases hac : cfg.AutoCleanup
  · rw [if_pos hac]
    show (Uploader.cleanupChunks _ f).fs _ = _
    unfold Uploader.cleanupChunks
    have hgc : FileManager.GetChunks fm1 f = l1 := by
      unfold FileManager.GetChunks
      rw [hl1]
      rfl
    simp only [hgc]
    rw [cleanupFold_other l1 _ _ hPnot]
    rw [hfsP, hflat]
  · rw [if_neg hac]
    show fs2 (filepathJoin cfg.UploadsDir f) = _
    rw [hfsP, hflat]

/-- Driving lemma: from an invariant state, submitting the remaining
indices (a permutation tail) runs to completion with the concatenated
artifact on disk. -/
theorem runAll_correct (cfg : Config) (f : String) (n : Nat)
    (payloads : Nat → List Nat) (S : Int)
    (hS : S = ((((List.range n).map payloads).flatten.length : Nat) : Int)) :
    ∀ (rest done : List Nat) (sys : Sys), rest ≠ [] →
      UploadInv cfg f n payloads done sys →
      (done ++ rest).Perm (List.range n) →
      ∃ sysF, runAll cfg f (n : Int) S payloads sys rest = some sysF ∧
        sysF.fs (filepathJoin cfg.UploadsDir f)
          = some ((List.range n).map payloads).flatten := by
  intro rest
  induction rest with
  | nil => intro done sys h; exact absurd rfl h
  | cons i rest' ih =>
    intro done sys _ hInv hperm
    have hnodup : (done ++ i :: rest').Nodup :=
      hperm.nodup_iff.mpr (List.nodup_range n)
    have hmem : ∀ j : Nat, j ∈ done ++ i :: rest' ↔ j < n := by
      intro j
      rw [hperm.mem_iff, List.mem_range]
    have hi : i < n := (hmem i).mp (by simp)
    have hdisj := (List.nodup_append.mp hnodup).2.2
    have hnotin : i ∉ done := fun h => hdisj h (by simp)
    rcases rest' with _ | ⟨j, rest''⟩
    · -- final submission
      have hcov : ∀ k, k < n → k ∈ i :: done := by
        intro k hk
        rcases List.mem_append.mp ((hmem k).mpr hk) with h | h
        · exact List.mem_cons_of_mem i h
        · simp at h
          simp [h]
      obtain ⟨sys1, hstep, hfs⟩ :=
        step_final cfg f n payloads S done sys i hInv hi hnotin hcov hS
      refine ⟨sys1, ?_, hfs⟩
      simp only [runAll, hstep]
    · -- at least one more submission follows
      have hjn : j < n := (hmem j).mp (by simp)
      have hcons_nodup : (i :: j :: rest'').Nodup := (List.nodup_append.mp hnodup).2.1
      have hji : j ≠ i := by
        intro h
        subst h
        simp at hcons_nodup
      have hjdone : j ∉ done := fun h => hdisj h (by simp)
      have hmiss : ∃ k, k < n ∧ k ∉ i :: done := by
        refine ⟨j, hjn, ?_⟩
        intro h
        rcases List.mem_cons.mp h with h | h
        · exact hji h
        · exact hjdone h
      obtain ⟨sys1, hstep, hInv'⟩ :=
        step_incomplete cfg f n payloads S done sys i hInv hi hnotin hmiss
      have hperm' : ((i :: done) ++ (j :: rest'')).Perm (List.range n) :=
        (List.perm_middle.symm.trans hperm)
      obtain ⟨sysF, hrun, hfs⟩ := ih (i :: done) sys1 (by simp) hInv' hperm'
      refine ⟨sysF, ?_, hfs⟩
      simp only [runAll, hstep]
      exact hrun

/-- C1: for every totalChunks n ≥ 1 and every sequence of chunk submissions
for one identity covering indices 0..n-1 exactly once, in any submission
order, when the declared fileSize equals the sum of the chunk payload
lengths, the run completes and the final artifact equals the byte-wise
concatenation of the chunk payloads in index order (not submission
order). -/
theorem C1_assembly_concatenates_in_index_order (cfg : Config) (f : String)
    (n : Nat) (payloads : Nat → List Nat) (S : Int) (order : List Nat)
    (sys0 : Sys) (hn : 1 ≤ n) (horder : order.Perm (List.range n))
    (hfresh : sys0.fm f = none)
    (hS : S = ((((List.range n).map (fun j => (payloads j).length)).sum : Nat) : Int)) :
    ∃ sysF, runAll cfg f (n : Int) S payloads sys0 order = some sysF ∧
      sysF.fs (filepathJoin cfg.UploadsDir f)
        = some ((List.range n).map payloads).flatten := by
  have hS' : S = ((((List.range n).map payloads).flatten.length : Nat) : Int) := by
    rw [hS, List.length_flatten, List.map_map]
    rfl
  have hne : order ≠ [] := by
    intro h
    subst h
    have hlen := horder.length_eq
    simp at hlen
    omega
  exact runAll_correct cfg f n payloads S hS' order [] sys0 hne
    (Or.inl ⟨rfl, hfresh⟩) (by simpa using horder)

/-- Witness for C1: "Hello" uploaded as two chunks submitted in reverse
order assembles to the in-index-order concatenation. -/
theorem C1_witness :
    ∃ sysF, runAll DefaultConfig "hello.txt" (2 : Int) 5
        (fun i => if i = 0 then [72, 101, 108] else [108, 111])
        { fs := Store.empty, fm := Store.empty } [1, 0] = some sysF ∧
      sysF.fs (filepathJoin DefaultConfig.UploadsDir "hello.txt")
        = some ((List.range 2).map
            (fun i => if i = 0 then [72, 101, 108] else [108, 111])).flatten :=
  C1_assembly_concatenates_in_index_order DefaultConfig "hello.txt" 2
    (fun i => if i = 0 then [72, 101, 108] else [108, 111]) 5 [1, 0]
    { fs := Store.empty, fm := Store.empty } (by decide) (by decide) rfl (by decide)

/-! ### Further AddChunk case lemmas -/

theorem AddChunk_some_oob (fm : FileManager) (f p : String) (i n : Int)
    (l : List String) (hl : fm f = some l)
    (h : ¬(0 ≤ i ∧ i < (l.length : Int))) :
    FileManager.AddChunk fm f p i n = (fm, true) := by
  unfold FileManager.AddChunk
  simp only [hl]
  rw [if_neg h]

theorem AddChunk_none_neg (fm : FileManager) (f p : String) (i n : Int)
    (hl : fm f = none) (h : n < 0) :
    FileManager.AddChunk fm f p i n = (fm, true) := by
  unfold FileManager.AddChunk
  simp only [hl]
  rw [if_pos h]

theorem AddChunk_none_oob (fm : FileManager) (f p : String) (i n : Int)
    (hl : fm f = none) (hn : ¬ n < 0) (h : ¬(0 ≤ i ∧ i < n)) :
    FileManager.AddChunk fm f p i n
      = (Store.write fm f (List.replicate n.toNat ""), true) := by
  unfold FileManager.AddChunk
  simp only [hl]
  rw [if_neg hn, if_neg h]

/-! ### Claim C2 -/

/-- C2 counterexample: on an entry of length 2, AddChunk at index 5 does
not return silently without error — it takes the Go panic path (flag true),
though the entry is indeed left unchanged. -/
theorem C2_counterexample :
    (FileManager.AddChunk (Store.write Store.empty "f" ["", ""]) "f" "p" 5 2).2 = true
    ∧ (FileManager.AddChunk (Store.write Store.empty "f" ["", ""]) "f" "p" 5 2).1 "f"
        = some ["", ""] := by
  constructor
  · rfl
  · rfl

/-- C2 (amended): for an identity with an already-allocated slot sequence,
AddChunk with an out-of-bounds chunk index does not fail silently: it
panics (Go index-out-of-range), and the map — in particular the entry — is
left unchanged. -/
theorem C2_amended_oob_insert_panics (fm : FileManager) (f p : String)
    (i n : Int) (l : List String) (hl : fm f = some l)
    (hoob : i < 0 ∨ (l.length : Int) ≤ i) :
    FileManager.AddChunk fm f p i n = (fm, true) :=
  AddChunk_some_oob fm f p i n l hl (by omega)

/-- Witness for the amended C2 at a concrete out-of-bounds insert. -/
theorem C2_amended_witness :
    FileManager.AddChunk (Store.write Store.empty "f" ["", ""]) "f" "p" 5 2
      = (Store.write Store.empty "f" ["", ""], true) :=
  C2_amended_oob_insert_panics (Store.write Store.empty "f" ["", ""]) "f" "p"
    5 2 ["", ""] rfl (by decide)

/-! ### Claim C4 -/

/-- C4: for an identity with an entry of length n and exactly k filled
slots, GetStatus reports receivedChunks = k, totalChunks = n and
isComplete = (k = n); for an identity with no entry it reports
not-complete, zero received, zero total. -/
theorem C4_status_counts (sys : Sys) (f : String) :
    (∀ l, sys.fm f = some l →
      Uploader.GetStatus sys f =
        { FileName := f,
          IsComplete := decide (l.countP (fun c => c != "") = l.length),
          ReceivedChunks := l.countP (fun c => c != ""),
          TotalChunks := l.length })
    ∧ (sys.fm f = none →
      Uploader.GetStatus sys f =
        { FileName := f, IsComplete := false,
          ReceivedChunks := 0, TotalChunks := 0 }) := by
  constructor
  · intro l hl
    unfold Uploader.GetStatus FileManager.GetReceivedChunksCount FileManager.GetChunks
    simp only [hl, IsComplete_some sys.fm f l hl]
    have hiff : l.all (fun c => c != "")
        = decide (l.countP (fun c => c != "") = l.length) := by
      rw [Bool.eq_iff_iff, List.all_eq_true, decide_eq_true_iff]
      exact ⟨fun h => List.countP_eq_length.mpr h, fun h => List.countP_eq_length.mp h⟩
    rw [hiff]
    rfl
  · intro hl
    unfold Uploader.GetStatus FileManager.GetReceivedChunksCount
      FileManager.GetChunks FileManager.IsComplete
    simp only [hl]
    rfl

/-- Witness for C4: a 2-of-3 entry and an unknown identity. -/
theorem C4_witness :
    Uploader.GetStatus
        { fs := Store.empty, fm := Store.write Store.empty "f" ["a", "", "b"] } "f"
      = { FileName := "f", IsComplete := false, ReceivedChunks := 2, TotalChunks := 3 }
    ∧ Uploader.GetStatus { fs := Store.empty, fm := Store.empty } "g"
      = { FileName := "g", IsComplete := false, ReceivedChunks := 0, TotalChunks := 0 } := by
  constructor
  · have h := (C4_status_counts
      { fs := Store.empty, fm := Store.write Store.empty "f" ["a", "", "b"] } "f").1
      ["a", "", "b"] rfl
    rw [h]
    decide
  · exact (C4_status_counts { fs := Store.empty, fm := Store.empty } "g").2 rfl

/-! ### Claim C6 -/

/-- C6: the slot sequence length is fixed at creation — when the identity is
unseen, any entry AddChunk creates has exactly the declared totalChunks
length; and for an existing entry every subsequent AddChunk preserves the
entry (same length), whatever totalChunks it declares. -/
theorem C6_entry_length_fixed (fm : FileManager) (f : String) :
    (∀ (p : String) (i n : Int), fm f = none →
      ∀ l1, (FileManager.AddChunk fm f p i n).1 f = some l1 → (l1.length : Int) = n)
    ∧ (∀ (l : List String), fm f = some l →
      ∀ (p : String) (i n : Int), ∃ l1,
        (FileManager.AddChunk fm f p i n).1 f = some l1 ∧ l1.length = l.length) := by
  constructor
  · intro p i n hnone l1 h
    by_cases hneg : n < 0
    · simp only [AddChunk_none_neg fm f p i n hnone hneg] at h
      rw [hnone] at h
      exact absurd h (by simp)
    · by_cases hib : 0 ≤ i ∧ i < n
      · simp only [AddChunk_none_inbounds fm f p i n hnone hib.1 hib.2] at h
        rw [Store.write_self] at h
        have hl1 : l1 = (List.replicate n.toNat "").set i.toNat p := by
          injection h.symm
        subst hl1
        simp
        omega
      · simp only [AddChunk_none_oob fm f p i n hnone hneg hib] at h
        rw [Store.write_self] at h
        have hl1 : l1 = List.replicate n.toNat "" := by
          injection h.symm
        subst hl1
        simp
        omega
  · intro l hl p i n
    by_cases hib : 0 ≤ i ∧ i < (l.length : Int)
    · simp only [AddChunk_some_inbounds fm f p i n l hl hib.1 hib.2]
      exact ⟨l.set i.toNat p, Store.write_self _ _ _, by simp⟩
    · simp only [AddChunk_some_oob fm f p i n l hl hib]
      exact ⟨l, hl, rfl⟩

/-- Witness for C6: creation fixes length 3; a later insert declaring a
different total keeps length 3. -/
theorem C6_witness :
    (∀ l1, (FileManager.AddChunk Store.empty "f" "p" 0 3).1 "f" = some l1 →
      (l1.length : Int) = 3)
    ∧ (∃ l1, (FileManager.AddChunk
        (Store.write Store.empty "f" ["p", "", ""]) "f" "q" 1 7).1 "f" = some l1
        ∧ l1.length = (["p", "", ""] : List String).length) := by
  constructor
  · exact fun l1 h => (C6_entry_length_fixed Store.empty "f").1 "p" 0 3 rfl l1 h
  · exact (C6_entry_length_fixed (Store.write Store.empty "f" ["p", "", ""]) "f").2
      ["p", "", ""] rfl "q" 1 7

/-! ### Claim C5 -/

/-- C5: for a complete chunk set (every slot filled, each chunk file
readable and distinct from the final artifact path) whose total byte
length differs from the declared expected size, stitchFile fails with the
size-mismatch error carrying both the expected and actual byte counts and
deletes the partially written final artifact, leaving no final artifact on
disk. -/
theorem C5_size_mismatch_deletes_artifact (cfg : Config) (sys : Sys)
    (f : String) (es : Int) (l : List String) (hl : sys.fm f = some l)
    (hcomp : FileManager.IsComplete sys.fm f = true)
    (hread : ∀ p ∈ l, p ≠ filepathJoin cfg.UploadsDir f ∧ sys.fs p ≠ none)
    (hmis : (((l.map (fun p => (sys.fs p).getD [])).flatten.length : Nat) : Int) ≠ es) :
    (Uploader.stitchFile cfg sys f es).2
        = Except.error ("file size mismatch: expected " ++ intStr es ++ ", got "
            ++ intStr (((l.map (fun p => (sys.fs p).getD [])).flatten.length : Nat) : Int))
    ∧ (Uploader.stitchFile cfg sys f es).1.fs (filepathJoin cfg.UploadsDir f)
        = none := by
  apply stitchFile_mismatch cfg sys f es l (fun p => (sys.fs p).getD []) hl ?_ hmis
  intro p hp
  obtain ⟨h1, h2⟩ := hread p hp
  have hall : l.all (fun c => c != "") = true := by
    rw [← IsComplete_some sys.fm f l hl]
    exact hcomp
  have hpne : p ≠ "" := by simpa using List.all_eq_true.mp hall p hp
  refine ⟨hpne, h1, ?_⟩
  cases hfs : sys.fs p with
  | none => exact absurd hfs h2
  | some c => simp [hfs]

/-- Witness for C5: one stored 3-byte chunk declared as 99 bytes. -/
theorem C5_witness :
    (Uploader.stitchFile DefaultConfig
        { fs := Store.write Store.empty "t/c0" [1, 2, 3],
          fm := Store.write Store.empty "a" ["t/c0"] } "a" 99).2
      = Except.error ("file size mismatch: expected " ++ intStr 99 ++ ", got "
          ++ intStr 3)
    ∧ (Uploader.stitchFile DefaultConfig
        { fs := Store.write Store.empty "t/c0" [1, 2, 3],
          fm := Store.write Store.empty "a" ["t/c0"] } "a" 99).1.fs
        (filepathJoin DefaultConfig.UploadsDir "a") = none :=
  C5_size_mismatch_deletes_artifact DefaultConfig
    { fs := Store.write Store.empty "t/c0" [1, 2, 3],
      fm := Store.write Store.empty "a" ["t/c0"] } "a" 99 ["t/c0"] rfl rfl
    (by decide) (by decide)

/-! ### Claim C10 -/

/-- Helper: any path an instance-based stitch returns with success is the
verbatim join of the uploads directory and the caller-supplied name. -/
theorem stitchFile_ok_path (cfg : Config) (sys : Sys) (f : String) (es : Int)
    (p_ : String) (h : (Uploader.stitchFile cfg sys f es).2 = Except.ok p_) :
    p_ = filepathJoin cfg.UploadsDir f := by
  simp only [Uploader.stitchFile] at h
  split at h
  · simp at h
  · split at h
    · simp at h
    · simpa using h.symm

/-- C10: a successful instance-based stitch writes the final artifact at
exactly UploadsDir joined with the caller-supplied fileName, used verbatim
(so two uploads with equal file names target the same final path), while
the legacy lib.go helper's final path substitutes the fresh GUID for the
name, keeping only the extension. -/
theorem C10_final_path_naming :
    (∀ (cfg : Config) (sys : Sys) (f : String) (es : Int) (p_ : String),
      (Uploader.stitchFile cfg sys f es).2 = Except.ok p_ →
      p_ = filepathJoin cfg.UploadsDir f)
    ∧ (∀ (cfg : Config) (sys1 sys2 : Sys) (f : String) (es1 es2 : Int)
        (p1 p2 : String),
      (Uploader.stitchFile cfg sys1 f es1).2 = Except.ok p1 →
      (Uploader.stitchFile cfg sys2 f es2).2 = Except.ok p2 → p1 = p2)
    ∧ (∀ f guid, legacyFinalPath f guid
        = filepathJoin "./uploads" (guid ++ filepathExt f))
    ∧ legacyFinalPath "report.pdf" "guid-1" = "./uploads/guid-1.pdf" := by
  refine ⟨stitchFile_ok_path, ?_, fun f guid => rfl, by decide⟩
  intro cfg sys1 sys2 f es1 es2 p1 p2 h1 h2
  rw [stitchFile_ok_path cfg sys1 f es1 p1 h1, stitchFile_ok_path cfg sys2 f es2 p2 h2]

/-- Witness for C10 at a concrete successful stitch. -/
theorem C10_witness :
    ("./uploads/a" : String) = filepathJoin DefaultConfig.UploadsDir "a" :=
  C10_final_path_naming.1 DefaultConfig
    { fs := Store.write Store.empty "c0" [], fm := Store.write Store.empty "a" ["c0"] }
    "a" 0 "./uploads/a" rfl

/-! ### Claim C7 -/

/-- C7: every chunk submission that fails the method check, form parsing,
field validation, the file-part fetch, or chunk persistence (temp dir
creation, temp file creation, payload copy) returns an error and leaves
the upload index exactly as it was before the request, so the client may
retry the same chunk. -/
theorem C7_failed_submission_preserves_index (cfg : Config) (eff : IoFlags)
    (sys : Sys) (r : Request)
    (hfail : r.method ≠ "POST" ∨ r.parseFormOk = false
      ∨ (∃ e, Uploader.extractChunkInfo r = Except.error e)
      ∨ r.formFileOk = false ∨ eff.mkdirTempOk = false
      ∨ eff.createTempOk = false ∨ eff.copyTempOk = false) :
    ∃ sys1 e, Uploader.HandleUpload cfg eff sys r = some (sys1, Except.error e)
      ∧ sys1.fm = sys.fm := by
  obtain ⟨meth, pOk, fn, ciS, tcS, fsS, ffOk, pay⟩ := r
  obtain ⟨mk1, cr1, cp1⟩ := eff
  unfold Uploader.HandleUpload Uploader.processChunk
  by_cases hm : meth ≠ "POST"
  · rw [if_pos hm]
    exact ⟨sys, _, rfl, rfl⟩
  · rw [if_neg hm]
    cases pOk with
    | false => exact ⟨sys, _, rfl, rfl⟩
    | true =>
      cases hext : Uploader.extractChunkInfo
          { method := meth, parseFormOk := true, fileName := fn,
            chunkIndexStr := ciS, totalChunksStr := tcS, fileSizeStr := fsS,
            formFileOk := ffOk, payload := pay } with
      | error e =>
        simp only [hext]
        exact ⟨sys, e, rfl, rfl⟩
      | ok info =>
        simp only [hext]
        cases ffOk with
        | false => exact ⟨sys, _, rfl, rfl⟩
        | true =>
          cases mk1 with
          | false => exact ⟨sys, _, rfl, rfl⟩
          | true =>
            cases cr1 with
            | false => exact ⟨sys, _, rfl, rfl⟩
            | true =>
              cases cp1 with
              | false => exact ⟨_, _, rfl, rfl⟩
              | true =>
                exfalso
                rcases hfail with h | h | h | h | h | h | h
                · exact hm h
                · simp at h
                · obtain ⟨e, he⟩ := h
                  rw [he] at hext
                  simp at hext
                · simp at h
                · simp at h
                · simp at h
                · simp at h

/-- Witness for C7: a GET request is rejected with no index change. -/
theorem C7_witness :
    ∃ sys1 e, Uploader.HandleUpload DefaultConfig ioAllOk
        { fs := Store.empty, fm := Store.empty }
        { method := "GET", parseFormOk := true, fileName := "a",
          chunkIndexStr := "0", totalChunksStr := "1", fileSizeStr := "1",
          formFileOk := true, payload := [7] } = some (sys1, Except.error e)
      ∧ sys1.fm = ({ fs := Store.empty, fm := Store.empty } : Sys).fm :=
  C7_failed_submission_preserves_index DefaultConfig ioAllOk
    { fs := Store.empty, fm := Store.empty }
    { method := "GET", parseFormOk := true, fileName := "a",
      chunkIndexStr := "0", totalChunksStr := "1", fileSizeStr := "1",
      formFileOk := true, payload := [7] }
    (Or.inl (by decide))

/-! ### Claim C9 -/

/-- stitchFile never changes the file-manager component. -/
theorem stitchFile_fm (cfg : Config) (s : Sys) (f : String) (es : Int) :
    (Uploader.stitchFile cfg s f es).1.fm = s.fm := by
  simp only [Uploader.stitchFile]
  split
  · rfl
  · split
    · rfl
    · rfl

/-- An AddChunk call that does not panic leaves an entry for the file. -/
theorem AddChunk_false_entry (fm : FileManager) (f p : String) (i n : Int)
    (fm1 : FileManager)
    (h : FileManager.AddChunk fm f p i n = (fm1, false)) :
    ∃ l1, fm1 f = some l1 := by
  unfold FileManager.AddChunk at h
  cases hl : fm f with
  | some l =>
    simp only [hl] at h
    by_cases hc : 0 ≤ i ∧ i < (l.length : Int)
    · rw [if_pos hc] at h
      injection h with h1 _
      rw [← h1]
      exact ⟨_, Store.write_self _ _ _⟩
    · rw [if_neg hc] at h
      injection h with _ h2
      simp at h2
  | none =>
    simp only [hl] at h
    by_cases hn : n < 0
    · rw [if_pos hn] at h
      injection h with _ h2
      simp at h2
    · rw [if_neg hn] at h
      by_cases hc : 0 ≤ i ∧ i < n
      · rw [if_pos hc] at h
        injection h with h1 _
        rw [← h1]
        exact ⟨_, Store.write_self _ _ _⟩
      · rw [if_neg hc] at h
        injection h with _ h2
        simp at h2

/-- C9: a submission that completes assembly successfully with automatic
cleanup enabled removes the identity's entry from the index — a subsequent
status query reports the identity as unknown (not complete, zero received,
zero total) — and deletes every chunk file recorded in the entry. -/
theorem C9_successful_cleanup (cfg : Config) (sys : Sys) (info : ChunkInfo)
    (payload : List Nat) (hauto : cfg.AutoCleanup = true)
    (hok : (Uploader.processChunk cfg ioAllOk sys info payload).map
        (fun out => respStatus out.2) = some "complete") :
    ((Uploader.processChunk cfg ioAllOk sys info payload).map
        (fun out => out.1.fm info.FileName) = some none)
    ∧ ((Uploader.processChunk cfg ioAllOk sys info payload).map
        (fun out => Uploader.GetStatus out.1 info.FileName)
        = some { FileName := info.FileName, IsComplete := false,
                 ReceivedChunks := 0, TotalChunks := 0 })
    ∧ (∀ p, p ∈ FileManager.GetChunks
          (FileManager.AddChunk sys.fm info.FileName
            (chunkPathOf cfg.TempDir info.FileName info.ChunkIndex)
            info.ChunkIndex info.TotalChunks).1 info.FileName →
        (Uploader.processChunk cfg ioAllOk sys info payload).map
          (fun out => out.1.fs p) = some none) := by
  rcases hadd : FileManager.AddChunk sys.fm info.FileName
      (chunkPathOf cfg.TempDir info.FileName info.ChunkIndex)
      info.ChunkIndex info.TotalChunks with ⟨fm1, b⟩
  cases b with
  | true =>
    rw [processChunk_eq] at hok
    simp only [hadd] at hok
    simp at hok
  | false =>
    rw [processChunk_eq] at hok
    simp only [hadd] at hok
    cases hcomp : FileManager.IsComplete fm1 info.FileName with
    | false =>
      simp only [hcomp] at hok
      have hok2 : (some "chunk_received" : Option String) = some "complete" := hok
      simp at hok2
    | true =>
      simp only [hcomp] at hok
      rcases hstit : Uploader.stitchFile cfg
          { fs := Store.write sys.fs
              (chunkPathOf cfg.TempDir info.FileName info.ChunkIndex) payload,
            fm := fm1 } info.FileName info.FileSize with ⟨sys2, res⟩
      cases res with
      | error e =>
        simp only [hstit] at hok
        have hok2 : (some "" : Option String) = some "complete" := hok
        simp at hok2
      | ok fp =>
        have hfm2 : sys2.fm = fm1 := by
          have h0 := stitchFile_fm cfg
            { fs := Store.write sys.fs
                (chunkPathOf cfg.TempDir info.FileName info.ChunkIndex) payload,
              fm := fm1 } info.FileName info.FileSize
          rw [hstit] at h0
          exact h0
        obtain ⟨l1, hl1⟩ := AddChunk_false_entry _ _ _ _ _ _ hadd
        have hgc : FileManager.GetChunks fm1 info.FileName = l1 := by
          unfold FileManager.GetChunks
          rw [hl1]
          rfl
        have heval := processChunk_complete cfg sys info payload fm1 sys2 fp
          hadd hcomp hstit
        rw [heval]
        rw [hauto]
        rw [if_pos rfl]
        refine ⟨?_, ?_, ?_⟩
        · simp [Uploader.cleanupChunks, FileManager.RemoveFile, Store.erase]
        · simp [Uploader.cleanupChunks, FileManager.RemoveFile, Store.erase,
            Uploader.GetStatus, FileManager.IsComplete,
            FileManager.GetReceivedChunksCount, FileManager.GetChunks]
        · intro p hp
          simp only [hadd] at hp
          rw [hgc] at hp
          have hpne : p ≠ "" := by
            have hall : l1.all (fun c => c != "") = true := by
              rw [← IsComplete_some fm1 info.FileName l1 hl1]
              exact hcomp
            simpa using List.all_eq_true.mp hall p hp
          show some ((Uploader.cleanupChunks sys2 info.FileName).fs p) = some none
          simp only [Uploader.cleanupChunks]
          rw [hfm2, hgc]
          rw [cleanupFold_erases l1 sys2.fs p hp hpne]

/-- Witness for C9: a one-chunk upload with AutoCleanup on. -/
theorem C9_witness :
    ((Uploader.processChunk DefaultConfig ioAllOk
        { fs := Store.empty, fm := Store.empty }
        { FileName := "a", ChunkIndex := 0, TotalChunks := 1, FileSize := 2 }
        [7, 8]).map (fun out => out.1.fm "a") = some none)
    ∧ ((Uploader.processChunk DefaultConfig ioAllOk
        { fs := Store.empty, fm := Store.empty }
        { FileName := "a", ChunkIndex := 0, TotalChunks := 1, FileSize := 2 }
        [7, 8]).map (fun out => Uploader.GetStatus out.1 "a")
        = some { FileName := "a", IsComplete := false,
                 ReceivedChunks := 0, TotalChunks := 0 })
    ∧ (∀ p, p ∈ FileManager.GetChunks
          (FileManager.AddChunk Store.empty "a"
            (chunkPathOf DefaultConfig.TempDir "a" 0) 0 1).1 "a" →
        (Uploader.processChunk DefaultConfig ioAllOk
          { fs := Store.empty, fm := Store.empty }
          { FileName := "a", ChunkIndex := 0, TotalChunks := 1, FileSize := 2 }
          [7, 8]).map (fun out => out.1.fs p) = some none) :=
  C9_successful_cleanup DefaultConfig { fs := Store.empty, fm := Store.empty }
    { FileName := "a", ChunkIndex := 0, TotalChunks := 1, FileSize := 2 }
    [7, 8] rfl rfl

/-! ### Claim C3 -/

/-- A successful association lookup comes from a bound pair. -/
theorem assocFind_mem (l : List (String × Nat)) (k : String) (v : Nat)
    (h : assocFind l k = some v) : ∃ e ∈ l, e.2 = v := by
  unfold assocFind at h
  cases hf : l.find? (fun e => e.1 == k) with
  | none => rw [hf] at h; simp at h
  | some e =>
    rw [hf] at h
    simp at h
    exact ⟨e, List.mem_of_find?_eq_some hf, h⟩

theorem writeAt_data_ne (h : SliceHeap) (id j : Nat) (l : List String)
    (hne : j ≠ id) : (h.writeAt id l).data j = h.data j := by
  simp [SliceHeap.writeAt, hne]

theorem alloc_data_ne (h : SliceHeap) (l : List String) (j : Nat)
    (hj : j ≠ h.next) : (h.alloc l).1.data j = h.data j := by
  simp [SliceHeap.alloc, hj]

/-- Evaluation of the heap-model AddChunk on a bound identity. -/
theorem HAddChunk_eval_some (s : HFM) (f' p : String) (i n : Int) (id2 : Nat)
    (hfind : assocFind s.entries f' = some id2) :
    HFM.AddChunk s f' p i n =
      (if 0 ≤ i ∧ i < ((s.heap.data id2).length : Int) then
        ({ s with heap := s.heap.writeAt id2 ((s.heap.data id2).set i.toNat p) },
          false)
      else (s, true)) := by
  unfold HFM.AddChunk
  rw [hfind]

/-- Evaluation of the heap-model AddChunk on an unbound identity. -/
theorem HAddChunk_eval_none (s : HFM) (f' p : String) (i n : Int)
    (hfind : assocFind s.entries f' = none) :
    HFM.AddChunk s f' p i n =
      (if n < 0 then (s, true)
       else
        if 0 ≤ i ∧ i < n then
          ({ heap := (s.heap.alloc (List.replicate n.toNat "")).1.writeAt
              s.heap.next ((List.replicate n.toNat "").set i.toNat p),
             entries := assocSet s.entries f' s.heap.next }, false)
        else
          ({ heap := (s.heap.alloc (List.replicate n.toNat "")).1,
             entries := assocSet s.entries f' s.heap.next }, true)) := by
  unfold HFM.AddChunk
  rw [hfind]
  rfl

/-- AddChunk only writes to a slice bound in the entries or freshly
allocated: the contents of any other slice id are untouched. -/
theorem AddChunk_data_other (s : HFM) (f' p : String) (i n : Int) (j : Nat)
    (hent : ∀ e ∈ s.entries, e.2 ≠ j) (hnext : j ≠ s.heap.next) :
    (HFM.AddChunk s f' p i n).1.heap.data j = s.heap.data j := by
  cases hfind : assocFind s.entries f' with
  | some id2 =>
    obtain ⟨e, hmem, he2⟩ := assocFind_mem s.entries f' id2 hfind
    have hne : j ≠ id2 := fun h => (hent e hmem) (by omega)
    rw [HAddChunk_eval_some s f' p i n id2 hfind]
    split
    · exact writeAt_data_ne s.heap id2 j _ hne
    · rfl
  | none =>
    rw [HAddChunk_eval_none s f' p i n hfind]
    split
    · rfl
    · split
      · show ((s.heap.alloc (List.replicate n.toNat "")).1.writeAt s.heap.next
            ((List.replicate n.toNat "").set i.toNat p)).data j = s.heap.data j
        rw [writeAt_data_ne _ s.heap.next j _ hnext]
        exact alloc_data_ne s.heap _ j hnext
      · exact alloc_data_ne s.heap _ j hnext

/-- C3 (amended): the instance-based GetChunks returns a snapshot copy —
in the heap model, a freshly allocated slice — so any subsequent AddChunk,
for this or any other identity, leaves the returned sequence's contents
unchanged. (The legacy lib.go GetChunks instead returns the live slice;
see the counterexample.) -/
theorem C3_amended_copy_is_snapshot (s : HFM) (f : String) (id : Nat)
    (hwf : s.wf) (hget : (HFM.GetChunksCopy s f).2 = some id) :
    ∀ (f' p : String) (i n : Int),
      (HFM.AddChunk (HFM.GetChunksCopy s f).1 f' p i n).1.heap.data id
        = (HFM.GetChunksCopy s f).1.heap.data id := by
  intro f' p i n
  obtain ⟨eid, hfind⟩ : ∃ eid, assocFind s.entries f = some eid := by
    unfold HFM.GetChunksCopy at hget
    cases hfd : assocFind s.entries f with
    | none => rw [hfd] at hget; simp at hget
    | some eid => exact ⟨eid, rfl⟩
  have hcopy : HFM.GetChunksCopy s f =
      ({ heap := (s.heap.alloc (s.heap.data eid)).1, entries := s.entries },
        some s.heap.next) := by
    unfold HFM.GetChunksCopy
    rw [hfind]
    rfl
  have hid : id = s.heap.next := by
    rw [hcopy] at hget
    simpa using hget.symm
  subst hid
  rw [hcopy]
  apply AddChunk_data_other
  · intro e hmem
    have := hwf e hmem
    omega
  · show s.heap.next ≠ (s.heap.alloc (s.heap.data eid)).1.next
    simp only [SliceHeap.alloc]
    omega

/-- Witness for C3 (amended) on a concrete heap state. -/
theorem C3_witness :
    (HFM.AddChunk (HFM.GetChunksCopy
        { heap := { data := fun j => if j = 0 then ["", ""] else [], next := 1 },
          entries := [("f", 0)] } "f").1 "f" "p" 0 2).1.heap.data 1
      = (HFM.GetChunksCopy
        { heap := { data := fun j => if j = 0 then ["", ""] else [], next := 1 },
          entries := [("f", 0)] } "f").1.heap.data 1 :=
  C3_amended_copy_is_snapshot
    { heap := { data := fun j => if j = 0 then ["", ""] else [], next := 1 },
      entries := [("f", 0)] } "f" 1 (by decide) rfl "f" "p" 0 2

/-- C3 counterexample: the legacy lib.go GetChunks returns the live slice —
a subsequent AddChunk for the same identity mutates the sequence previously
returned, so it is not a snapshot copy. -/
theorem C3_counterexample :
    ((HFM.GetChunksLive
        { heap := { data := fun j => if j = 0 then ["", ""] else [], next := 1 },
          entries := [("f", 0)] } "f").2 = some 0)
    ∧ ({ heap := { data := fun j => if j = 0 then ["", ""] else [], next := 1 },
          entries := [("f", 0)] } : HFM).heap.data 0 = ["", ""]
    ∧ ((HFM.AddChunk
        { heap := { data := fun j => if j = 0 then ["", ""] else [], next := 1 },
          entries := [("f", 0)] } "f" "p" 0 2).1.heap.data 0 = ["p", ""]) := by
  refine ⟨rfl, rfl, ?_⟩
  rfl

/-! ### Claim C8 -/

/-- Setting a slot to the value it already holds is the identity. -/
theorem set_getElem?_self (l : List String) (i : Nat) (a : String)
    (h : l[i]? = some a) : l.set i a = l := by
  apply List.ext_getElem?
  intro k
  by_cases hk : k = i
  · subst hk
    obtain ⟨hlt, hval⟩ := List.getElem?_eq_some.mp h
    rw [List.getElem?_set_eq_of_lt _ hlt, h]
  · rw [List.getElem?_set_ne (fun hh => hk hh.symm)]

/-- Re-submitting an already-registered in-range index while some other
index is still missing: the chunk is accepted, the index is left literally
unchanged (the slot already holds this chunk path), and the chunk store now
holds the new payload — the invariant advances to the updated payloads. -/
theorem step_duplicate (cfg : Config) (f : String) (n : Nat)
    (payloads : Nat → List Nat) (S : Int) (done : List Nat) (sys : Sys)
    (i : Nat) (q : List Nat)
    (hInv : UploadInv cfg f n payloads done sys)
    (hi : i < n) (hin : i ∈ done)
    (hmiss : ∃ k, k < n ∧ k ∉ done) :
    ∃ sys1, Uploader.processChunk cfg ioAllOk sys
        { FileName := f, ChunkIndex := (i : Int), TotalChunks := (n : Int),
          FileSize := S } q
      = some (sys1, Except.ok
          { Status := "chunk_received", FileName := f, ChunkIndex := (i : Int),
            TotalChunks := (n : Int), Message := "", FilePath := "",
            ReceivedSize := 0 })
      ∧ UploadInv cfg f n (Function.update payloads i q) done sys1
      ∧ sys1.fm = sys.fm := by
  rcases hInv with ⟨hd, _⟩ | ⟨hne, l, hl, hlen, hslot, hfs⟩
  · subst hd; simp at hin
  · have hslot_i : l[i]? = some (chunkPathOf cfg.TempDir f (i : Int)) := by
      rw [hslot i hi, if_pos hin]
    have hadd := AddChunk_some_inbounds sys.fm f
      (chunkPathOf cfg.TempDir f (i : Int)) (i : Int) (n : Int) l hl
      (by omega) (by rw [hlen]; exact_mod_cast hi)
    simp only [Int.toNat_ofNat] at hadd
    rw [set_getElem?_self l i _ hslot_i] at hadd
    have hfm1 : Store.write sys.fm f l = sys.fm := by
      funext x
      by_cases hx : x = f
      · subst hx; rw [Store.write_self, hl]
      · rw [Store.write_ne _ _ _ _ hx]
    rw [hfm1] at hadd
    obtain ⟨k, hk, hknotin⟩ := hmiss
    have hcomp : FileManager.IsComplete sys.fm f = false :=
      IsComplete_false_of_empty_slot sys.fm f l k hl
        (by rw [hslot k hk, if_neg (by simp [hknotin])])
    refine ⟨_, processChunk_incomplete cfg sys
        { FileName := f, ChunkIndex := (i : Int), TotalChunks := (n : Int),
          FileSize := S } q sys.fm hadd hcomp, ?_, rfl⟩
    right
    refine ⟨hne, l, hl, hlen, hslot, ?_⟩
    intro j hj
    by_cases hji : j = i
    · subst hji
      show Store.write sys.fs (chunkPathOf cfg.TempDir f (j : Int)) q
          (chunkPathOf cfg.TempDir f (j : Int)) = _
      rw [Store.write_self, Function.update_same]
    · have hpath : chunkPathOf cfg.TempDir f (j : Int)
          ≠ chunkPathOf cfg.TempDir f (i : Int) := by
        intro h
        exact hji (chunkPathOf_inj_nat cfg.TempDir f h)
      show Store.write sys.fs (chunkPathOf cfg.TempDir f (i : Int)) q
          (chunkPathOf cfg.TempDir f (j : Int)) = _
      rw [Store.write_ne _ _ _ _ hpath, Function.update_noteq hji]
      exact hfs j hj

/-- C8: submitting the same (identity, index) twice overwrites rather than
duplicates. First conjunct: at the index level, inserting twice at the same
index leaves exactly the index state a single insert of the last value
would (one location per index). Second conjunct: in a two-chunk upload
where index 0 is submitted twice (payloads p0 then q0) before index 1, all
three submissions are accepted, the second leaves the index entry exactly
as the first did, and the final artifact is q0 ++ p1 — the content for
index 0 reflects the last write. -/
theorem C8_duplicate_overwrites :
    (∀ (fm : FileManager) (f p q : String) (i n1 n2 : Int) (l : List String),
      fm f = some l → 0 ≤ i → i < (l.length : Int) →
      (FileManager.AddChunk ((FileManager.AddChunk fm f p i n1).1) f q i n2).1
        = (FileManager.AddChunk fm f q i n1).1)
    ∧ (∀ (cfg : Config) (f : String) (p0 q0 p1 : List Nat) (sys0 : Sys),
      sys0.fm f = none →
      ∃ sys1 r1 sys2 r2 sys3 r3,
        Uploader.processChunk cfg ioAllOk sys0
            { FileName := f, ChunkIndex := ((0 : Nat) : Int),
              TotalChunks := ((2 : Nat) : Int),
              FileSize := ((q0.length + p1.length : Nat) : Int) } p0
          = some (sys1, Except.ok r1)
        ∧ Uploader.processChunk cfg ioAllOk sys1
            { FileName := f, ChunkIndex := ((0 : Nat) : Int),
              TotalChunks := ((2 : Nat) : Int),
              FileSize := ((q0.length + p1.length : Nat) : Int) } q0
          = some (sys2, Except.ok r2)
        ∧ sys2.fm = sys1.fm
        ∧ Uploader.processChunk cfg ioAllOk sys2
            { FileName := f, ChunkIndex := ((1 : Nat) : Int),
              TotalChunks := ((2 : Nat) : Int),
              FileSize := ((q0.length + p1.length : Nat) : Int) } p1
          = some (sys3, Except.ok r3)
        ∧ r3.Status = "complete"
        ∧ sys3.fs (filepathJoin cfg.UploadsDir f) = some (q0 ++ p1)) := by
  constructor
  · intro fm f p q i n1 n2 l hl h0 hlt
    rw [AddChunk_some_inbounds fm f p i n1 l hl h0 hlt]
    have hl2 : Store.write fm f (l.set i.toNat p) f = some (l.set i.toNat p) :=
      Store.write_self _ _ _
    rw [AddChunk_some_inbounds (Store.write fm f (l.set i.toNat p)) f q i n2 _
      hl2 h0 (by rw [List.length_set]; exact hlt)]
    rw [AddChunk_some_inbounds fm f q i n1 l hl h0 hlt]
    show Store.write (Store.write fm f (l.set i.toNat p)) f
        ((l.set i.toNat p).set i.toNat q) = Store.write fm f (l.set i.toNat q)
    funext x
    by_cases hx : x = f
    · subst hx
      rw [Store.write_self, Store.write_self, List.set_set]
    · rw [Store.write_ne _ _ _ _ hx, Store.write_ne _ _ _ _ hx,
        Store.write_ne _ _ _ _ hx]
  · intro cfg f p0 q0 p1 sys0 hfresh
    set payloadsA : Nat → List Nat := fun j => if j = 0 then p0 else p1 with hA
    set S : Int := ((q0.length + p1.length : Nat) : Int) with hSdef
    obtain ⟨sys1, hstep1, hInv1⟩ := step_incomplete cfg f 2 payloadsA S [] sys0 0
      (Or.inl ⟨rfl, hfresh⟩) (by omega) (by simp) ⟨1, by omega, by simp⟩
    obtain ⟨sys2, hstep2, hInv2, hfm21⟩ := step_duplicate cfg f 2 payloadsA S [0] sys1 0
      q0 hInv1 (by omega) (by simp) ⟨1, by omega, by simp⟩
    have hcov : ∀ j, j < 2 → j ∈ 1 :: [0] := by
      intro j hj
      rcases j with _ | _ | j
      · simp
      · simp
      · omega
    have hflat : ((List.range 2).map (Function.update payloadsA 0 q0)).flatten
        = q0 ++ p1 := by
      have hr : List.range 2 = [0, 1] := rfl
      rw [hr]
      simp only [List.map_cons, List.map_nil, List.flatten]
      rw [Function.update_same, Function.update_noteq (by omega)]
      simp [hA]
    have hS2 : S = ((((List.range 2).map (Function.update payloadsA 0 q0)).flatten.length
        : Nat) : Int) := by
      rw [hflat, hSdef]
      simp
    obtain ⟨sys3, hstep3, hfs3⟩ := step_final cfg f 2
      (Function.update payloadsA 0 q0) S [0] sys2 1 hInv2 (by omega) (by simp)
      hcov hS2
    have hp0 : payloadsA 0 = p0 := rfl
    have hq0 : Function.update payloadsA 0 q0 0 = q0 := Function.update_same _ _ _
    have hp1 : Function.update payloadsA 0 q0 1 = p1 := by
      rw [Function.update_noteq (by omega)]
      rfl
    rw [hp0] at hstep1
    rw [hp1] at hstep3
    rw [hflat] at hfs3
    exact ⟨sys1, _, sys2, _, sys3, _, hstep1, hstep2, hfm21, hstep3, rfl, hfs3⟩

/-- Witness for C8 at concrete inputs. -/
theorem C8_witness :
    ((FileManager.AddChunk
        ((FileManager.AddChunk (Store.write Store.empty "f" ["a", "b"]) "f" "x" 0 2).1)
        "f" "y" 0 9).1
      = (FileManager.AddChunk (Store.write Store.empty "f" ["a", "b"]) "f" "y" 0 2).1)
    ∧ (∃ sys1 r1 sys2 r2 sys3 r3,
        Uploader.processChunk DefaultConfig ioAllOk
            { fs := Store.empty, fm := Store.empty }
            { FileName := "d", ChunkIndex := ((0 : Nat) : Int),
              TotalChunks := ((2 : Nat) : Int),
              FileSize := ((([2] : List Nat).length + ([3] : List Nat).length : Nat) : Int) }
            [1]
          = some (sys1, Except.ok r1)
        ∧ Uploader.processChunk DefaultConfig ioAllOk sys1
            { FileName := "d", ChunkIndex := ((0 : Nat) : Int),
              TotalChunks := ((2 : Nat) : Int),
              FileSize := ((([2] : List Nat).length + ([3] : List Nat).length : Nat) : Int) }
            [2]
          = some (sys2, Except.ok r2)
        ∧ sys2.fm = sys1.fm
        ∧ Uploader.processChunk DefaultConfig ioAllOk sys2
            { FileName := "d", ChunkIndex := ((1 : Nat) : Int),
              TotalChunks := ((2 : Nat) : Int),
              FileSize := ((([2] : List Nat).length + ([3] : List Nat).length : Nat) : Int) }
            [3]
          = some (sys3, Except.ok r3)
        ∧ r3.Status = "complete"
        ∧ sys3.fs (filepathJoin DefaultConfig.UploadsDir "d")
            = some (([2] : List Nat) ++ [3])) := by
  constructor
  · exact C8_duplicate_overwrites.1 (Store.write Store.empty "f" ["a", "b"])
      "f" "x" "y" 0 2 9 ["a", "b"] rfl (by decide) (by decide)
  · exact C8_duplicate_overwrites.2 DefaultConfig "d" [1] [2] [3]
      { fs := Store.empty, fm := Store.empty } rfl

end ChunkedUploader
